import Mathlib

/-!
# Verification of the vision-grounded desktop-automation core

Shallow embedding of the repository's core modules and proofs of the
specification claims about them:

* `src/grounding.py` — coordinate codec (`_parse_coordinates`,
  `_norm_to_pixels`) and the `GroundingEngine` retry loop
  (`ground`, `ground_with_retry`);
* `src/notepad.py` — window lifecycle (`launch_notepad`, `save_post`)
  and the module-level `_grounding_disabled` degradation flag;
* `main.py` — the per-item orchestration loop.

Strings are modelled as `List Char`.  Python's arbitrary-precision
integers are modelled as `Nat` (all quantities involved are
non-negative).  Python float arithmetic in `_norm_to_pixels` is
modelled as exact rational arithmetic, under which `int(x)` on a
non-negative value is the floor.  GUI side effects (clicks, sleeps,
window polling, the filesystem) are modelled by explicit environment
records describing the outcome of each external interaction, and the
functions return the resulting control-flow outcome together with
counters of the observable effects (backend invocations, subprocess
launches, annotation files, ...).
-/

namespace Automation

/-! ## Character classes

`isWS` is the ASCII whitespace class used both by Python's `str.strip()`
and by the regex class `\s` (restricted to ASCII input, which is all the
claims quantify over): space, tab, newline, carriage return, vertical
tab, form feed.  `isDigitC` is the regex class `\d` (ASCII digits). -/

def isWS (c : Char) : Bool :=
  c.toNat = 32 || c.toNat = 9 || c.toNat = 10 || c.toNat = 13 ||
  c.toNat = 11 || c.toNat = 12

def isDigitC (c : Char) : Bool :=
  48 ≤ c.toNat && c.toNat ≤ 57

/-- The backtick character (used by the markdown-fence removal). -/
def btick : Char := Char.ofNat 96

/-! ## Digit strings and their numeric value -/

/-- Numeric value of a list of ASCII digit characters (most significant
first), as computed by Python's `int(...)` on a digit string. -/
def digitsVal (l : List Char) : Nat :=
  l.foldl (fun a c => 10 * a + (c.toNat - 48)) 0

/-- The decimal digit character for `n < 10`. -/
def digitChar : Nat → Char
  | 0 => '0' | 1 => '1' | 2 => '2' | 3 => '3' | 4 => '4'
  | 5 => '5' | 6 => '6' | 7 => '7' | 8 => '8' | _ => '9'

/-- Decimal rendering of a natural number (fuel-indexed so that it is
structurally recursive and kernel-reducible). -/
def toDigitsAux : Nat → Nat → List Char
  | 0, _ => []
  | fuel + 1, n =>
    if n < 10 then [digitChar n]
    else toDigitsAux fuel (n / 10) ++ [digitChar (n % 10)]

/-- Decimal rendering of a natural number, e.g. `toDigits 523 = ['5','2','3']`. -/
def toDigits (n : Nat) : List Char := toDigitsAux (n + 1) n

/-! ## The Python exception taxonomy

`GroundExc` covers the exceptions that can be raised during a single
grounding attempt: `valueError` is the `ValueError` raised by
`_parse_coordinates` (the spec's `ParseError`), carrying the
preprocessed text from the f-string message; `inferenceError` stands
for any exception raised by a backend transport
(`InferenceError`/`ModelUnavailableError`); `captureError` for a
failure of `capture_desktop`; `annotateError` for a failure of
`annotate_result`.

`PyExc` covers the exceptions observable at the window-lifecycle level:
an escaped attempt-level exception, `TimeoutError` from
`wait_for_window`, and the `RuntimeError` raised by `ground_with_retry`
after `n` exhausted attempts with last underlying error `last`
(`from last_exc`). -/

inductive GroundExc where
  | valueError (text : List Char)
  | inferenceError
  | captureError
  | annotateError
  deriving DecidableEq, Repr

inductive PyExc where
  | ground (e : GroundExc)
  | timeoutError
  | runtimeError (attempts : Nat) (last : Option GroundExc)
  deriving DecidableEq, Repr

instance {ε α : Type} [DecidableEq ε] [DecidableEq α] : DecidableEq (Except ε α) := fun x y =>
  match x, y with
  | .ok a, .ok b =>
    if h : a = b then isTrue (by rw [h]) else isFalse (by intro hc; cases hc; exact h rfl)
  | .error a, .error b =>
    if h : a = b then isTrue (by rw [h]) else isFalse (by intro hc; cases hc; exact h rfl)
  | .ok _, .error _ => isFalse (by intro hc; cases hc)
  | .error _, .ok _ => isFalse (by intro hc; cases hc)

/-! ## Coordinate codec: `_parse_coordinates`

The Python function preprocesses with
`text = response_text.strip().replace("```", "")` and then tries, in
order, `re.search` with the three patterns

* `\(\s*(\d+(?:\.\d+)?)\s*,\s*(\d+(?:\.\d+)?)\s*\)`   — `(x, y)`
* `(\d+(?:\.\d+)?)\s*,\s*(\d+(?:\.\d+)?)`             — `x, y`
* `(\d+(?:\.\d+)?)\s+(\d+(?:\.\d+)?)`                 — `x y`

returning `int(float(g1)), int(float(g2))` of the first match, and
raising `ValueError` when none matches.  `re.search` returns the
left-most match; for these patterns greedy matching without
backtracking coincides with the regex semantics, because a digit run is
always followed in the pattern by a character class that excludes
digits, so shortening a greedy `\d+` (or `\.\d+`) can never turn a
failure into a success.  `int(float(s))` on a non-negative decimal
literal truncates toward zero, i.e. keeps the integer part (exact for
all magnitudes relevant to the claims). -/

/-- Scan `\d+(?:\.\d+)?` at the head of the input.  Returns the value of
the capture after `int(float(...))` truncation (= value of the integer
digit run) and the remaining input, or `none` if the input does not
start with a digit. -/
def scanNum (l : List Char) : Option (Nat × List Char) :=
  let ds := l.takeWhile isDigitC
  if ds = [] then none
  else
    let rest := l.dropWhile isDigitC
    match rest with
    | c :: r2 =>
      if c = '.' then
        if r2.takeWhile isDigitC = [] then some (digitsVal ds, rest)
        else some (digitsVal ds, r2.dropWhile isDigitC)
      else some (digitsVal ds, rest)
    | [] => some (digitsVal ds, [])

/-- Match the parenthesised pattern `\(\s*N\s*,\s*N\s*\)` at the start
of the input. -/
def matchP1 (l : List Char) : Option (Nat × Nat) :=
  match l with
  | [] => none
  | c :: t =>
    if c = '(' then
      match scanNum (t.dropWhile isWS) with
      | none => none
      | some (x, r1) =>
        match r1.dropWhile isWS with
        | [] => none
        | c2 :: t2 =>
          if c2 = ',' then
            match scanNum (t2.dropWhile isWS) with
            | none => none
            | some (y, r2) =>
              match r2.dropWhile isWS with
              | [] => none
              | c3 :: _ => if c3 = ')' then some (x, y) else none
          else none
    else none

/-- Match the bare comma pattern `N\s*,\s*N` at the start of the input. -/
def matchP2 (l : List Char) : Option (Nat × Nat) :=
  match scanNum l with
  | none => none
  | some (x, r1) =>
    match r1.dropWhile isWS with
    | [] => none
    | c2 :: t2 =>
      if c2 = ',' then
        match scanNum (t2.dropWhile isWS) with
        | none => none
        | some (y, _) => some (x, y)
      else none

/-- Match the bare whitespace pattern `N\s+N` at the start of the input. -/
def matchP3 (l : List Char) : Option (Nat × Nat) :=
  match scanNum l with
  | none => none
  | some (x, r1) =>
    if r1.takeWhile isWS = [] then none
    else
      match scanNum (r1.dropWhile isWS) with
      | none => none
      | some (y, _) => some (x, y)

/-- `re.search`: try the matcher at every start position, left to right
(including the empty suffix, as `re.search` does), returning the first
success. -/
def searchM (m : List Char → Option (Nat × Nat)) : List Char → Option (Nat × Nat)
  | [] => m []
  | c :: t =>
    match m (c :: t) with
    | some v => some v
    | none => searchM m t

/-- Python `str.strip()`: drop leading and trailing whitespace. -/
def pyStrip (l : List Char) : List Char :=
  ((l.dropWhile isWS).reverse.dropWhile isWS).reverse

/-- Python `str.replace("```", "")`: delete every (non-overlapping,
left-to-right) occurrence of three consecutive backticks. -/
def removeFences : List Char → List Char
  | [] => []
  | [c] => [c]
  | [c, d] => [c, d]
  | c :: d :: e :: r =>
    if c = btick ∧ d = btick ∧ e = btick then removeFences r
    else c :: removeFences (d :: e :: r)

/-- The preprocessed text `response_text.strip().replace("```", "")`. -/
def preprocess (l : List Char) : List Char := removeFences (pyStrip l)

/-- `_parse_coordinates` from `src/grounding.py`. -/
def parse_coordinates (response_text : List Char) : Except GroundExc (Nat × Nat) :=
  let text := preprocess response_text
  match searchM matchP1 text with
  | some p => .ok p
  | none =>
    match searchM matchP2 text with
    | some p => .ok p
    | none =>
      match searchM matchP3 text with
      | some p => .ok p
      | none => .error (.valueError text)

/-! ## Coordinate codec: `_norm_to_pixels`

`px = int((nx / 1000) * SCREEN_WIDTH)` with Python float arithmetic
modelled as exact rational arithmetic; for non-negative operands the
`int(...)` truncation is the floor, so `px = nx * W / 1000` in `Nat`
division.  The screen dimensions come from configuration and are passed
as parameters. -/

def norm_to_pixels (W H nx ny : Nat) : Nat × Nat :=
  (nx * W / 1000, ny * H / 1000)

/-! ## Configuration (`src/config.py`)

All values are environment-sourced; they are carried as an explicit
record.  Sleeps and delays have no logical effect in the model.  -/

structure Config where
  GROUNDING_MAX_RETRIES : Nat
  ANNOTATE_SCREENSHOTS : Bool
  SCREEN_WIDTH : Nat
  SCREEN_HEIGHT : Nat
  deriving Repr

/-! ## `GroundingEngine` (`src/grounding.py`)

One grounding *attempt* interacts with three external effects whose
outcomes are supplied by an `AttemptEnv`:

* `captureOk`    — whether `capture_desktop()` succeeds (it raises on
                   failure);
* `inferResult`  — the backend transport: either the raw model text
                   (both `_LocalBackend.ground` and `_VLLMBackend.ground`
                   obtain raw text, then call `_parse_coordinates` and
                   `_norm_to_pixels` on it), or a transport exception;
* `annotateOk`   — whether `annotate_result` succeeds in persisting the
                   annotated debug image (it raises on failure, after
                   which no file exists).
-/

structure AttemptEnv where
  captureOk : Bool
  inferResult : Except Unit (List Char)
  annotateOk : Bool

/-- Observable outcome of one attempt: the control-flow result plus the
number of backend invocations, `annotate_result` invocations, and
annotated image files actually persisted during the attempt. -/
structure StepOut where
  res : Except GroundExc (Nat × Nat)
  backendCalls : Nat
  annotateCalls : Nat
  images : Nat
  deriving DecidableEq, Repr

/-- `self._backend.ground(screenshot, description)`: run the transport,
parse the raw text, convert to pixels. -/
def backendGround (cfg : Config) (inferResult : Except Unit (List Char)) :
    Except GroundExc (Nat × Nat) :=
  match inferResult with
  | .error _ => .error .inferenceError
  | .ok raw =>
    match parse_coordinates raw with
    | .error e => .error e
    | .ok (nx, ny) => .ok (norm_to_pixels cfg.SCREEN_WIDTH cfg.SCREEN_HEIGHT nx ny)

/-- `GroundingEngine.ground` (with `save_annotation = True`, as in every
call from `ground_with_retry`): ground via the backend, then — iff
`ANNOTATE_SCREENSHOTS` is set — call `annotate_result`, whose failure
propagates as an exception out of `ground`. -/
def engineGround (cfg : Config) (a : AttemptEnv) : StepOut :=
  match backendGround cfg a.inferResult with
  | .error e => ⟨.error e, 1, 0, 0⟩
  | .ok p =>
    if cfg.ANNOTATE_SCREENSHOTS then
      if a.annotateOk then ⟨.ok p, 1, 1, 1⟩ else ⟨.error .annotateError, 1, 1, 0⟩
    else ⟨.ok p, 1, 0, 0⟩

/-- One iteration of the `ground_with_retry` loop body: capture a fresh
screenshot unless this is attempt 1 and the caller supplied one
(`screenshot if (screenshot is not None and attempt == 1) else
capture_desktop()`), then call `self.ground`.  A capture failure aborts
the attempt before the backend is invoked. -/
def attemptStep (cfg : Config) (a : AttemptEnv) (needCapture : Bool) : StepOut :=
  if needCapture && !a.captureOk then ⟨.error .captureError, 0, 0, 0⟩
  else engineGround cfg a

/-- Whether attempt number `k` needs a fresh `capture_desktop()` call:
only attempt 1 may reuse a caller-supplied screenshot. -/
def needCap (hasShot : Bool) (k : Nat) : Bool := !(hasShot && k == 1)

/-- Observable outcome of a whole `ground_with_retry` call: final
result, number of attempts performed, and the per-attempt step records
in order. -/
structure GwrOut where
  res : Except PyExc (Nat × Nat)
  attemptsMade : Nat
  trace : List StepOut
  deriving DecidableEq, Repr

def GwrOut.backendCalls (o : GwrOut) : Nat := (o.trace.map StepOut.backendCalls).sum
def GwrOut.annotateCalls (o : GwrOut) : Nat := (o.trace.map StepOut.annotateCalls).sum
def GwrOut.images (o : GwrOut) : Nat := (o.trace.map StepOut.images).sum

/-- The `for attempt in range(1, retries + 1)` loop of
`ground_with_retry`: run attempts starting at number `attempt` with
`fuel` attempts remaining; `except Exception` catches any attempt-level
exception, records it as `last_exc`, sleeps, and retries; when the fuel
is spent the loop falls through to
`raise RuntimeError(... ) from last_exc`. -/
def gwrAux (cfg : Config) (env : Nat → AttemptEnv) (hasShot : Bool) (retries : Nat) :
    Nat → Nat → Option GroundExc → GwrOut
  | attempt, 0, last => ⟨.error (.runtimeError retries last), attempt - 1, []⟩
  | attempt, fuel + 1, _ =>
    let s := attemptStep cfg (env attempt) (needCap hasShot attempt)
    match s.res with
    | .ok p => ⟨.ok p, attempt, [s]⟩
    | .error e =>
      let rest := gwrAux cfg env hasShot retries (attempt + 1) fuel (some e)
      ⟨rest.res, rest.attemptsMade, s :: rest.trace⟩

/-- `GroundingEngine.ground_with_retry`:
`retries = max_retries if max_retries is not None else
config.GROUNDING_MAX_RETRIES`; `hasShot` records whether the caller
supplied a `screenshot` argument. -/
def ground_with_retry (cfg : Config) (maxRetries : Option Nat) (hasShot : Bool)
    (env : Nat → AttemptEnv) : GwrOut :=
  let retries := maxRetries.getD cfg.GROUNDING_MAX_RETRIES
  gwrAux cfg env hasShot retries 1 retries none

/-! ## Window lifecycle (`src/notepad.py`) and orchestration (`main.py`)

The window system is external and racy; its reactions are supplied by
an `ItemEnv`, one per work item.  Window handles are opaque — the model
uses arbitrary `Nat` tags whose values carry no meaning.

`launchGround k` is the attempt environment of the `ground_with_retry`
call made on launch attempt `k` (the call passes no `max_retries` and
no `screenshot`); `windowAppears k` is whether
`wait_for_window("Notepad", timeout=8)` finds the window after the
double-click of launch attempt `k`; `subprocFindOk` is whether the
window is found after `_launch_notepad_subprocess`'s `subprocess.Popen`;
`verifyFindOk a` / `verifyRelaunchFindOk a` are the two
`wait_for_window` outcomes inside iteration `a` of the
verify-blank-document loop; `blankTitle a` is whether the window title
contains "untitled" at iteration `a`; `forcedFindOk` is the
`wait_for_window` outcome after the final forced clean relaunch;
`fsAfterSave` is the filesystem state (path ↦ file size) after the
save-as interaction of this item; `residualDialogs` is the number of
residual dialogs dismissed during the save (they have no effect on the
verification). -/

structure ItemEnv where
  launchGround : Nat → Nat → AttemptEnv
  windowAppears : Nat → Bool
  subprocFindOk : Bool
  verifyFindOk : Nat → Bool
  verifyRelaunchFindOk : Nat → Bool
  blankTitle : Nat → Bool
  forcedFindOk : Bool
  fsAfterSave : List Char → Option Nat
  postId : Nat
  residualDialogs : Nat

/-- Observable outcome of one `launch_notepad` call. -/
structure LaunchOut where
  res : Except PyExc Nat
  flagAfter : Bool
  gwrCalls : Nat
  backendCalls : Nat
  subprocLaunches : Nat
  usedSubprocForLaunch : Bool
  verifyIterations : Nat
  forcedRelaunch : Bool
  deriving DecidableEq, Repr

/-- Outcome of the grounding-launch part (`for launch_attempt in
range(1, 4)`). -/
structure PhaseAOut where
  res : Except PyExc Nat
  flagAfter : Bool
  gwrCalls : Nat
  backendCalls : Nat
  subprocLaunches : Nat
  usedSubproc : Bool
  deriving DecidableEq, Repr

/-- Outcome of the verify-blank-document loop: `.ok (some h)` — blank
document confirmed with handle `h`; `.ok none` — attempt budget
exhausted; `.error` — an uncaught `TimeoutError` from the in-loop
relaunch.  Also returns the number of loop iterations executed and of
`subprocess.Popen` relaunches performed. -/
structure VerifyOut where
  res : Except PyExc (Option Nat)
  iterations : Nat
  subprocLaunches : Nat
  deriving DecidableEq, Repr

/-- The `for launch_attempt in range(1, 4)` loop of `launch_notepad`:
ground the icon (a raised `RuntimeError` propagates — there is no
`except` around `ground_with_retry`), double-click, and wait up to 8 s
for the window; on `TimeoutError` dismiss dialogs and retry.  Returns
`.ok none` when all attempts leave `hwnd is None`, plus the number of
`ground_with_retry` calls and total backend invocations. -/
def launchLoop (cfg : Config) (env : ItemEnv) :
    Nat → Nat → Except PyExc (Option Nat) × Nat × Nat
  | _, 0 => (.ok none, 0, 0)
  | k, fuel + 1 =>
    let g := ground_with_retry cfg none false (env.launchGround k)
    match g.res with
    | .error e => (.error e, 1, g.backendCalls)
    | .ok _ =>
      if env.windowAppears k then (.ok (some k), 1, g.backendCalls)
      else
        let r := launchLoop cfg env (k + 1) fuel
        (r.1, r.2.1 + 1, r.2.2 + g.backendCalls)

/-- The `for attempt in range(1, 6)` verify-blank-document loop of
`launch_notepad`: dismiss dialogs; find the window (or relaunch via
`subprocess.Popen` if it vanished, where a second `TimeoutError`
propagates); if the title contains "untitled", return the handle;
otherwise close the stale tab (Ctrl+W), dismiss dialogs, and retry. -/
def verifyLoop (env : ItemEnv) : Nat → Nat → VerifyOut
  | _, 0 => ⟨.ok none, 0, 0⟩
  | a, fuel + 1 =>
    let found : Option Nat × Nat :=
      if env.verifyFindOk a then (some a, 0)
      else if env.verifyRelaunchFindOk a then (some (a + 100), 1)
      else (none, 1)
    match found with
    | (none, sp) => ⟨.error .timeoutError, 1, sp⟩
    | (some h, sp) =>
      if env.blankTitle a then ⟨.ok (some h), 1, sp⟩
      else
        let r := verifyLoop env (a + 1) fuel
        ⟨r.res, r.iterations + 1, r.subprocLaunches + sp⟩

/-- `launch_notepad(engine)` from `src/notepad.py`, with the
module-level `_grounding_disabled` flag passed in and returned
explicitly.  First `close_all_notepad_windows()`; then either the
direct subprocess path (flag set) or the grounding-launch loop, whose
full failure sets the flag and falls back to subprocess; then the
verify-blank-document loop with its forced clean relaunch on
exhaustion. -/
def launch_notepad (cfg : Config) (flag : Bool) (env : ItemEnv) : LaunchOut :=
  let phaseA : PhaseAOut :=
    if flag then
      if env.subprocFindOk then ⟨.ok 0, flag, 0, 0, 1, true⟩
      else ⟨.error .timeoutError, flag, 0, 0, 1, true⟩
    else
      match launchLoop cfg env 1 3 with
      | (.error e, gc, bc) => ⟨.error e, flag, gc, bc, 0, false⟩
      | (.ok (some h), gc, bc) => ⟨.ok h, flag, gc, bc, 0, false⟩
      | (.ok none, gc, bc) =>
        if env.subprocFindOk then ⟨.ok 0, true, gc, bc, 1, true⟩
        else ⟨.error .timeoutError, true, gc, bc, 1, true⟩
  match phaseA.res with
  | .error e =>
    ⟨.error e, phaseA.flagAfter, phaseA.gwrCalls, phaseA.backendCalls,
      phaseA.subprocLaunches, phaseA.usedSubproc, 0, false⟩
  | .ok _ =>
    let v := verifyLoop env 1 5
    match v.res with
    | .error e =>
      ⟨.error e, phaseA.flagAfter, phaseA.gwrCalls, phaseA.backendCalls,
        phaseA.subprocLaunches + v.subprocLaunches, phaseA.usedSubproc,
        v.iterations, false⟩
    | .ok (some h) =>
      ⟨.ok h, phaseA.flagAfter, phaseA.gwrCalls, phaseA.backendCalls,
        phaseA.subprocLaunches + v.subprocLaunches, phaseA.usedSubproc,
        v.iterations, false⟩
    | .ok none =>
      if env.forcedFindOk then
        ⟨.ok 999, phaseA.flagAfter, phaseA.gwrCalls, phaseA.backendCalls,
          phaseA.subprocLaunches + v.subprocLaunches + 1, phaseA.usedSubproc,
          v.iterations, true⟩
      else
        ⟨.error .timeoutError, phaseA.flagAfter, phaseA.gwrCalls,
          phaseA.backendCalls, phaseA.subprocLaunches + v.subprocLaunches + 1,
          phaseA.usedSubproc, v.iterations, true⟩

/-- `post_filename` from `src/api.py`: `f"post_(id).txt"` (braces shown
as parentheses here). -/
def post_filename (id : Nat) : List Char :=
  "post_".toList ++ toDigits id ++ ".txt".toList

/-- `os.path.join(directory, filename)` on Windows. -/
def joinPath (dir fname : List Char) : List Char := dir ++ '\\' :: fname

/-- `automation.save_file_as(filename, directory)`: drives the Save-As
dialog, dismisses up to 3 overwrite-confirmation dialogs and any
residual error dialogs (`residualDialogs` of them — with no effect on
the return value), and returns `os.path.join(directory, filename)`
unconditionally. -/
def save_file_as (fname dir : List Char) (_residualDialogs : Nat) : List Char :=
  joinPath dir fname

/-- `save_post(post, target_dir)` from `src/notepad.py`: perform the
Save-As interaction, then report success iff the destination file
exists on disk with size > 0 (`os.path.isfile` and
`os.path.getsize > 0`), where `fs` is the filesystem state after the
save action. -/
def save_post (fs : List Char → Option Nat) (postId : Nat) (target_dir : List Char)
    (residualDialogs : Nat) : Bool :=
  let full_path := save_file_as (post_filename postId) target_dir residualDialogs
  match fs full_path with
  | some size => decide (0 < size)
  | none => false

/-- One record of `main`'s `results` list: `ok = true` iff the item was
appended with `status = "ok"`. -/
structure RunRecord where
  ok : Bool
  launch : LaunchOut
  deriving Repr

/-- One iteration of `main`'s per-post loop: launch (any raised
`TimeoutError`/`RuntimeError`/other exception is caught at this
boundary and recorded as an item failure), type the content, save and
verify on disk, close; `status = "ok"` iff the save was verified. -/
def processItem (cfg : Config) (targetDir : List Char) (flag : Bool) (env : ItemEnv) :
    RunRecord × Bool :=
  let l := launch_notepad cfg flag env
  match l.res with
  | .error _ => (⟨false, l⟩, l.flagAfter)
  | .ok _ =>
    let saved := save_post env.fsAfterSave env.postId targetDir env.residualDialogs
    (⟨saved, l⟩, l.flagAfter)

/-- `main`'s loop over the fetched posts: strictly sequential, one
record per item, the degradation flag threaded through. -/
def runItems (cfg : Config) (targetDir : List Char) : Bool → List ItemEnv → List RunRecord
  | _, [] => []
  | flag, e :: rest =>
    let r := processItem cfg targetDir flag e
    r.1 :: runItems cfg targetDir r.2 rest

/-- The degradation flag after processing a list of items. -/
def runFlag (cfg : Config) (targetDir : List Char) : Bool → List ItemEnv → Bool
  | flag, [] => flag
  | flag, e :: rest => runFlag cfg targetDir (processItem cfg targetDir flag e).2 rest

/-! ## Auxiliary observables -/

/-- Whether an `Except` is a success. -/
def exceptOk {ε α : Type} : Except ε α → Bool
  | .ok _ => true
  | .error _ => false

/-- Whether one grounding attempt reaches a successful backend
decode + parse (i.e. the point in `GroundingEngine.ground` just before
the annotation side effect): the needed capture succeeded and
`self._backend.ground` returned pixels. -/
def decodeOK (cfg : Config) (a : AttemptEnv) (needCapture : Bool) : Bool :=
  !(needCapture && !a.captureOk) && exceptOk (backendGround cfg a.inferResult)

/-! ## Concrete fixtures

Closed configurations and environments used to instantiate the
universally quantified theorems on concrete runs. -/

/-- A configuration with 3 retries and annotation enabled, 1920×1080. -/
def cfg0 : Config := ⟨3, true, 1920, 1080⟩

/-- A configuration with 2 retries and annotation disabled, 1920×1080. -/
def cfg2 : Config := ⟨2, false, 1920, 1080⟩

/-- A concrete target directory. -/
def dir0 : List Char := "C:\\Users\\user\\Desktop\\tjm-project".toList

/-- Attempt environment: capture fails on attempt 1, annotation fails on
attempt 2, everything succeeds from attempt 3 on. -/
def envMixed : Nat → AttemptEnv := fun k =>
  if k = 1 then ⟨false, .ok "(1, 2)".toList, true⟩
  else if k = 2 then ⟨true, .ok "(3, 4)".toList, false⟩
  else ⟨true, .ok "(5, 6)".toList, true⟩

/-- Attempt environment in which the backend always raises. -/
def envInferFail : Nat → AttemptEnv := fun _ => ⟨true, .error (), true⟩

/-- Item environment in which every external interaction succeeds. -/
def envGood : ItemEnv where
  launchGround := fun _ _ => ⟨true, .ok "(500, 500)".toList, true⟩
  windowAppears := fun _ => true
  subprocFindOk := true
  verifyFindOk := fun _ => true
  verifyRelaunchFindOk := fun _ => true
  blankTitle := fun _ => true
  forcedFindOk := true
  fsAfterSave := fun _ => some 42
  postId := 1
  residualDialogs := 0

/-- Item environment in which the grounding backend always raises, so
every `ground_with_retry` call exhausts its retries. -/
def envFail : ItemEnv := { envGood with launchGround := fun _ _ => ⟨true, .error (), true⟩ }

/-- Item environment in which the window title never reads "Untitled"
(a stale session-restore tab survives every Ctrl+W). -/
def envStale : ItemEnv := { envGood with blankTitle := fun _ => false }

/-- Item environment in which the save action leaves a zero-byte file
at the destination path (post id 7) and raises no dialog or error. -/
def envZeroByte : ItemEnv :=
  { envGood with
    fsAfterSave := fun p => if p = joinPath dir0 (post_filename 7) then some 0 else none
    postId := 7 }

/-- Attempt environment in which every attempt fails with a *distinct*
parse error: the raw model text of attempt `k` is `fail<k>`, which
contains no coordinate pair. -/
def envParseFail : Nat → AttemptEnv := fun k => ⟨true, .ok ("fail".toList ++ toDigits k), true⟩

end Automation

namespace Automation

/-! ## Specification predicates

Declarative predicates about character lists used by the theorems:
token classes of the regular expressions and the declarative
"a coordinate shape occurs in this text" predicate. -/

/-- A list whose head (if any) falsifies `p`. -/
def headNot (p : Char → Bool) : List Char → Prop
  | [] => True
  | c :: _ => p c = false

/-- An optional fractional part `(\.\d+)?`. -/
def FracOpt (f : List Char) : Prop :=
  f = [] ∨ ∃ fd, fd ≠ [] ∧ (∀ c ∈ fd, isDigitC c = true) ∧ f = '.' :: fd

/-- A list that is empty or starts with a character that is neither a
digit nor a dot — the shape of the text following a number token in
every position the matchers reach. -/
def restOK : List Char → Prop
  | [] => True
  | c :: _ => isDigitC c = false ∧ c ≠ '.'

/-- A run of regex whitespace. -/
def WSonly (s : List Char) : Prop := ∀ c ∈ s, isWS c = true

/-- A nonempty run of ASCII digits. -/
def DigStr (d : List Char) : Prop := d ≠ [] ∧ ∀ c ∈ d, isDigitC c = true

/-- A substring matched by the parenthesised pattern
`\(\s*\d+(\.\d+)?\s*,\s*\d+(\.\d+)?\s*\)`. -/
def ShapeP1 (mid : List Char) : Prop :=
  ∃ s1 d1 f1 s2 s3 d2 f2 s4,
    WSonly s1 ∧ DigStr d1 ∧ FracOpt f1 ∧ WSonly s2 ∧ WSonly s3 ∧
    DigStr d2 ∧ FracOpt f2 ∧ WSonly s4 ∧
    mid = '(' :: (s1 ++ (d1 ++ f1 ++ (s2 ++ ',' :: (s3 ++ (d2 ++ f2 ++ (s4 ++ [')']))))))

/-- A substring matched by the bare comma pattern
`\d+(\.\d+)?\s*,\s*\d+(\.\d+)?`. -/
def ShapeP2 (mid : List Char) : Prop :=
  ∃ d1 f1 s2 s3 d2 f2,
    DigStr d1 ∧ FracOpt f1 ∧ WSonly s2 ∧ WSonly s3 ∧ DigStr d2 ∧ FracOpt f2 ∧
    mid = d1 ++ f1 ++ (s2 ++ ',' :: (s3 ++ (d2 ++ f2)))

/-- A substring matched by the bare whitespace pattern
`\d+(\.\d+)?\s+\d+(\.\d+)?`. -/
def ShapeP3 (mid : List Char) : Prop :=
  ∃ d1 f1 s d2 f2,
    DigStr d1 ∧ FracOpt f1 ∧ WSonly s ∧ s ≠ [] ∧ DigStr d2 ∧ FracOpt f2 ∧
    mid = d1 ++ f1 ++ (s ++ (d2 ++ f2))

/-- Some accepted coordinate shape occurs somewhere in the text. -/
def OccursShape (text : List Char) : Prop :=
  ∃ pre mid post, (ShapeP1 mid ∨ ShapeP2 mid ∨ ShapeP3 mid) ∧ text = pre ++ (mid ++ post)

/-! # Helper lemmas -/

theorem attemptStep_inferFail (cfg : Config) (a : AttemptEnv) (nc : Bool)
    (hc : a.captureOk = true) (hi : a.inferResult = .error ()) :
    attemptStep cfg a nc = ⟨.error .inferenceError, 1, 0, 0⟩ := by
  simp [attemptStep, hc, engineGround, backendGround, hi]

/-- When every attempt fails with `InferenceError`, the retry loop of
`ground_with_retry` burns all its fuel, one backend invocation per
attempt, and falls through to the `RuntimeError` whose cause is the
last attempt's error. -/
theorem gwrAux_allInferFail (cfg : Config) (env : Nat → AttemptEnv) (hasShot : Bool)
    (retries : Nat) (hc : ∀ k, (env k).captureOk = true)
    (hi : ∀ k, (env k).inferResult = .error ()) :
    ∀ fuel attempt last, 1 ≤ attempt →
      gwrAux cfg env hasShot retries attempt fuel last =
        ⟨.error (.runtimeError retries (if fuel = 0 then last else some .inferenceError)),
         attempt - 1 + fuel,
         List.replicate fuel ⟨.error .inferenceError, 1, 0, 0⟩⟩ := by
  intro fuel
  induction fuel with
  | zero => intro attempt last _; simp [gwrAux]
  | succ f ih =>
    intro attempt last h1
    have hs := attemptStep_inferFail cfg (env attempt) (needCap hasShot attempt)
      (hc attempt) (hi attempt)
    simp only [gwrAux, hs]
    rw [ih (attempt + 1) (some .inferenceError) (by omega)]
    simp only [GwrOut.mk.injEq]
    refine ⟨?_, by omega, by simp [List.replicate_succ]⟩
    rcases f with _ | f <;> simp

theorem sum_map_one {α : Type} (l : List α) : (l.map (fun _ => (1 : Nat))).sum = l.length := by
  induction l with
  | nil => rfl
  | cons a t ih => simp [ih]; omega

end Automation

namespace Automation

/-! # Claim C5 -/

/-- C5: `_norm_to_pixels` is a pure linear floor-based scaling,
`pixel = floor(n/1000 * dimension)` (characterised by
`1000 * px ≤ n * dim < 1000 * (px + 1)`), total on every non-negative
input with no clamping — degenerate inputs ≥ 1000 are scaled past the
screen edge rather than rejected — and takes the claimed values at
1920×1080. -/
theorem C5_norm_to_pixels_floor :
    (∀ W H nx ny,
      1000 * (norm_to_pixels W H nx ny).1 ≤ nx * W ∧
      nx * W < 1000 * ((norm_to_pixels W H nx ny).1 + 1) ∧
      1000 * (norm_to_pixels W H nx ny).2 ≤ ny * H ∧
      ny * H < 1000 * ((norm_to_pixels W H nx ny).2 + 1)) ∧
    norm_to_pixels 1920 1080 500 500 = (960, 540) ∧
    (∀ W H, norm_to_pixels W H 0 0 = (0, 0)) ∧
    norm_to_pixels 1920 1080 999 999 = (1918, 1078) ∧
    norm_to_pixels 1920 1080 250 250 = (480, 270) ∧
    norm_to_pixels 1920 1080 1500 2000 = (2880, 2160) := by
  refine ⟨?_, by decide, ?_, by decide, by decide, by decide⟩
  · intro W H nx ny
    simp only [norm_to_pixels]
    omega
  · intro W H
    simp [norm_to_pixels]

/-! # Claim C2 -/

/-- C2: when every attempt fails (the backend always raises),
`ground_with_retry` performs exactly the configured number of attempts —
the caller-supplied `max_retries`, or `config.GROUNDING_MAX_RETRIES`
when none is supplied — with exactly one backend invocation per
attempt, and terminates by raising the exhaustion `RuntimeError` whose
cause (`from last_exc`) is the last underlying error; it never returns
a coordinate.  The closing conjunct exhibits, on a run whose attempts
fail with pairwise distinct parse errors, that the recorded cause is
specifically the final attempt's error. -/
theorem C2_retry_exhaustion (cfg : Config) (maxRetries : Option Nat) (hasShot : Bool)
    (env : Nat → AttemptEnv)
    (hc : ∀ k, (env k).captureOk = true)
    (hi : ∀ k, (env k).inferResult = .error ()) :
    (ground_with_retry cfg maxRetries hasShot env).attemptsMade
        = maxRetries.getD cfg.GROUNDING_MAX_RETRIES ∧
    (ground_with_retry cfg maxRetries hasShot env).backendCalls
        = maxRetries.getD cfg.GROUNDING_MAX_RETRIES ∧
    (ground_with_retry cfg maxRetries hasShot env).res
        = .error (.runtimeError (maxRetries.getD cfg.GROUNDING_MAX_RETRIES)
            (if maxRetries.getD cfg.GROUNDING_MAX_RETRIES = 0 then none
             else some .inferenceError)) ∧
    (ground_with_retry cfg2 none false envParseFail).res
        = .error (.runtimeError 2 (some (.valueError "fail2".toList))) := by
  have h := gwrAux_allInferFail cfg env hasShot (maxRetries.getD cfg.GROUNDING_MAX_RETRIES)
    hc hi (maxRetries.getD cfg.GROUNDING_MAX_RETRIES) 1 none (by omega)
  unfold ground_with_retry
  rw [h]
  refine ⟨by simp, ?_, by simp, by decide⟩
  simp [GwrOut.backendCalls, List.map_replicate, List.sum_replicate]

/-- Witness for C2 at a concrete input: configuration `cfg2`
(`GROUNDING_MAX_RETRIES = 2`), no caller-supplied `max_retries`, a
backend that always raises: exactly 2 attempts, 2 backend invocations,
and the wrapped exhaustion error. -/
theorem C2_retry_exhaustion_witness :
    (∀ k, (envInferFail k).captureOk = true) ∧
    (ground_with_retry cfg2 none false envInferFail).attemptsMade = 2 ∧
    (ground_with_retry cfg2 none false envInferFail).backendCalls = 2 ∧
    (ground_with_retry cfg2 none false envInferFail).res
        = .error (.runtimeError 2 (some .inferenceError)) := by
  have h := C2_retry_exhaustion cfg2 none false envInferFail
    (fun _ => rfl) (fun _ => rfl)
  exact ⟨fun _ => rfl, by decide, by decide, by decide⟩

end Automation

namespace Automation

/-! # Claim C10 -/

/-- Every result of the retry loop is either a success or the wrapping
`RuntimeError` — no attempt-level exception type escapes. -/
theorem gwrAux_res_shape (cfg : Config) (env : Nat → AttemptEnv) (hasShot : Bool)
    (retries : Nat) :
    ∀ fuel attempt last,
      (∃ p, (gwrAux cfg env hasShot retries attempt fuel last).res = .ok p) ∨
      (∃ l2, (gwrAux cfg env hasShot retries attempt fuel last).res
          = .error (.runtimeError retries l2)) := by
  intro fuel
  induction fuel with
  | zero => intro attempt last; right; exact ⟨last, rfl⟩
  | succ f ih =>
    intro attempt last
    simp only [gwrAux]
    rcases hs : (attemptStep cfg (env attempt) (needCap hasShot attempt)).res with e | p
    · exact ih (attempt + 1) (some e)
    · exact Or.inl ⟨p, rfl⟩

/-- C10: `ground_with_retry` catches every exception raised during an
attempt — of any type, including screenshot-capture failures and
debug-annotation failures, not only parse or inference errors — counts
it as that attempt's failure and retries; a caller never observes an
underlying exception type: every call either returns a pixel pair or
raises the single wrapping `RuntimeError`.  The concrete conjuncts run
a call whose attempt 1 fails in `capture_desktop` and whose attempt 2
fails in `annotate_result` (after a successful decode), and show the
call still retries past both and succeeds on attempt 3. -/
theorem C10_catch_all (cfg : Config) (maxRetries : Option Nat) (hasShot : Bool)
    (env : Nat → AttemptEnv) :
    ((∃ p, (ground_with_retry cfg maxRetries hasShot env).res = .ok p) ∨
     (∃ l2, (ground_with_retry cfg maxRetries hasShot env).res
        = .error (.runtimeError (maxRetries.getD cfg.GROUNDING_MAX_RETRIES) l2))) ∧
    (attemptStep cfg0 (envMixed 1) (needCap false 1)).res = .error .captureError ∧
    (attemptStep cfg0 (envMixed 2) (needCap false 2)).res = .error .annotateError ∧
    (ground_with_retry cfg0 none false envMixed).res = .ok (9, 6) ∧
    (ground_with_retry cfg0 none false envMixed).attemptsMade = 3 ∧
    (ground_with_retry cfg0 none false envMixed).backendCalls = 2 := by
  refine ⟨?_, by decide, by decide, by decide, by decide, by decide⟩
  exact gwrAux_res_shape cfg env hasShot _ _ 1 none

/-! # Claim C8 -/

/-- With annotation enabled, one attempt invokes `annotate_result`
exactly when its backend decode + parse succeeded, and persists a file
exactly when the annotation save also succeeded. -/
theorem attemptStep_annotate (cfg : Config) (a : AttemptEnv) (nc : Bool)
    (hA : cfg.ANNOTATE_SCREENSHOTS = true) :
    (attemptStep cfg a nc).annotateCalls = (if decodeOK cfg a nc then 1 else 0) ∧
    (attemptStep cfg a nc).images = (if decodeOK cfg a nc && a.annotateOk then 1 else 0) := by
  unfold attemptStep decodeOK engineGround
  rcases hcap : (nc && !a.captureOk) with _ | _
  · rcases hb : backendGround cfg a.inferResult with e | p
    · simp [hcap, hb, exceptOk]
    · rcases han : a.annotateOk with _ | _ <;> simp [hcap, hb, exceptOk, hA, han]
  · simp [hcap, exceptOk]

/-- The trace of the retry loop is exactly the list of the step records
of attempts `attempt, attempt+1, ..., attemptsMade`. -/
theorem gwrAux_trace (cfg : Config) (env : Nat → AttemptEnv) (hasShot : Bool)
    (retries : Nat) :
    ∀ fuel attempt last, 1 ≤ attempt →
      ((gwrAux cfg env hasShot retries attempt fuel last).trace =
        (List.range' attempt
            ((gwrAux cfg env hasShot retries attempt fuel last).attemptsMade + 1 - attempt)).map
          (fun k => attemptStep cfg (env k) (needCap hasShot k)) ∧
       attempt - 1 ≤ (gwrAux cfg env hasShot retries attempt fuel last).attemptsMade ∧
       (gwrAux cfg env hasShot retries attempt fuel last).attemptsMade ≤ attempt - 1 + fuel) := by
  intro fuel
  induction fuel with
  | zero =>
    intro attempt last h1
    refine ⟨?_, by simp [gwrAux], by simp [gwrAux]⟩
    simp only [gwrAux]
    have : attempt - 1 + 1 - attempt = 0 := by omega
    rw [this]
    simp
  | succ f ih =>
    intro attempt last h1
    simp only [gwrAux]
    rcases hs : (attemptStep cfg (env attempt) (needCap hasShot attempt)).res with e | p
    · obtain ⟨ht, hlo, hhi⟩ := ih (attempt + 1) (some e) (by omega)
      simp only []
      refine ⟨?_, by omega, by omega⟩
      have hn : (gwrAux cfg env hasShot retries (attempt + 1) f (some e)).attemptsMade + 1 - attempt
          = ((gwrAux cfg env hasShot retries (attempt + 1) f (some e)).attemptsMade + 1
              - (attempt + 1)) + 1 := by omega
      rw [hn, List.range'_succ, List.map_cons, ← ht]
    · simp only []
      refine ⟨?_, by omega, by omega⟩
      have : attempt + 1 - attempt = 1 := by omega
      rw [this]
      simp

/-- C8: when annotation is enabled by configuration, the grounding
engine attempts to persist one annotated debug image on each attempt of
a `ground_with_retry` call whose backend decode + parse succeeded —
whatever the overall outcome of the call, not only on final success.
The trace equality identifies the executed attempts; the per-attempt
equalities pin the annotation count (and persisted-image count) of each
attempt.  The concrete conjuncts exhibit a call in which attempt 2
reaches a successful decode + parse (and invokes `annotate_result`,
which fails) without being the final attempt: two annotation
invocations, one persisted image. -/
theorem C8_annotation_per_attempt (cfg : Config) (maxRetries : Option Nat) (hasShot : Bool)
    (env : Nat → AttemptEnv) (hA : cfg.ANNOTATE_SCREENSHOTS = true) :
    ((ground_with_retry cfg maxRetries hasShot env).trace =
      (List.range' 1 ((ground_with_retry cfg maxRetries hasShot env).attemptsMade)).map
        (fun k => attemptStep cfg (env k) (needCap hasShot k))) ∧
    (∀ k, (attemptStep cfg (env k) (needCap hasShot k)).annotateCalls
        = (if decodeOK cfg (env k) (needCap hasShot k) then 1 else 0)) ∧
    (∀ k, (attemptStep cfg (env k) (needCap hasShot k)).images
        = (if decodeOK cfg (env k) (needCap hasShot k) && (env k).annotateOk then 1 else 0)) ∧
    (ground_with_retry cfg0 none false envMixed).annotateCalls = 2 ∧
    (ground_with_retry cfg0 none false envMixed).images = 1 ∧
    decodeOK cfg0 (envMixed 2) (needCap false 2) = true ∧
    (ground_with_retry cfg0 none false envMixed).attemptsMade = 3 := by
  obtain ⟨ht, _, _⟩ := gwrAux_trace cfg env hasShot
    (maxRetries.getD cfg.GROUNDING_MAX_RETRIES)
    (maxRetries.getD cfg.GROUNDING_MAX_RETRIES) 1 none (by omega)
  refine ⟨?_, ?_, ?_, by decide, by decide, by decide, by decide⟩
  · simpa [ground_with_retry] using ht
  · intro k; exact (attemptStep_annotate cfg (env k) _ hA).1
  · intro k; exact (attemptStep_annotate cfg (env k) _ hA).2

/-- Witness for C8 at a concrete input: configuration `cfg0` has
annotation enabled; the instantiated conclusions hold on the
mixed-failure attempt environment. -/
theorem C8_annotation_per_attempt_witness :
    cfg0.ANNOTATE_SCREENSHOTS = true ∧
    ((ground_with_retry cfg0 none false envMixed).trace =
      (List.range' 1 ((ground_with_retry cfg0 none false envMixed).attemptsMade)).map
        (fun k => attemptStep cfg0 (envMixed k) (needCap false k))) ∧
    (ground_with_retry cfg0 none false envMixed).annotateCalls = 2 := by
  have h := C8_annotation_per_attempt cfg0 none false envMixed rfl
  exact ⟨rfl, h.1, h.2.2.2.1⟩

end Automation

namespace Automation

/-! # Claim C1 -/

/-- With the degradation flag set, `launch_notepad` goes straight to
the subprocess path: the flag stays set, no `ground_with_retry` call
and no backend invocation happens, and at least one subprocess launch
does. -/
theorem launch_notepad_flagTrue (cfg : Config) (env : ItemEnv) :
    (launch_notepad cfg true env).flagAfter = true ∧
    (launch_notepad cfg true env).backendCalls = 0 ∧
    (launch_notepad cfg true env).gwrCalls = 0 ∧
    (launch_notepad cfg true env).usedSubprocForLaunch = true ∧
    1 ≤ (launch_notepad cfg true env).subprocLaunches := by
  unfold launch_notepad
  rcases h : env.subprocFindOk with _ | _
  · simp [h]
  · simp only [h, if_true, reduceIte]
    rcases hv : (verifyLoop env 1 5).res with e | ho
    · simp [hv]
    · rcases ho with _ | h2
      · rcases hf : env.forcedFindOk with _ | _ <;> simp [hv, hf]
      · simp [hv]

/-- The degradation flag is monotone across one item: once true, it
stays true. -/
theorem launch_notepad_flag_monotone (cfg : Config) (flag : Bool) (env : ItemEnv)
    (h : flag = true) : (launch_notepad cfg flag env).flagAfter = true := by
  subst h
  exact (launch_notepad_flagTrue cfg env).1

theorem processItem_flag (cfg : Config) (dir : List Char) (flag : Bool) (env : ItemEnv) :
    (processItem cfg dir flag env).2 = (launch_notepad cfg flag env).flagAfter := by
  unfold processItem
  rcases h : (launch_notepad cfg flag env).res with e | p <;> simp [h]

theorem processItem_launch (cfg : Config) (dir : List Char) (flag : Bool) (env : ItemEnv) :
    (processItem cfg dir flag env).1.launch = launch_notepad cfg flag env := by
  unfold processItem
  rcases h : (launch_notepad cfg flag env).res with e | p <;> simp [h]

/-- C1: the degradation flag (`_grounding_disabled`) is monotone — it
changes only from false to true (equivalently: if it is true before an
item it is true after) — and once it is set, every remaining item of
the run performs zero `ground_with_retry` calls and zero backend
invocations and launches via the direct subprocess path.  The append
decomposition shows that a run whose flag has tripped partway continues
exactly as a flag-set run on the remaining items. -/
theorem C1_degradation_monotone :
    (∀ (cfg : Config) (flag : Bool) (env : ItemEnv), flag = true →
      (launch_notepad cfg flag env).flagAfter = true) ∧
    (∀ (cfg : Config) (dir : List Char) (envs : List ItemEnv),
      ∀ r ∈ runItems cfg dir true envs,
        r.launch.backendCalls = 0 ∧ r.launch.gwrCalls = 0 ∧
        r.launch.usedSubprocForLaunch = true ∧ 1 ≤ r.launch.subprocLaunches) ∧
    (∀ (cfg : Config) (dir : List Char) (flag : Bool) (l1 l2 : List ItemEnv),
      runItems cfg dir flag (l1 ++ l2)
        = runItems cfg dir flag l1 ++ runItems cfg dir (runFlag cfg dir flag l1) l2) ∧
    (∀ (cfg : Config) (dir : List Char) (envs : List ItemEnv),
      runFlag cfg dir true envs = true) := by
  have hstep : ∀ (cfg : Config) (dir : List Char) (env : ItemEnv),
      (processItem cfg dir true env).2 = true := by
    intro cfg dir env
    rw [processItem_flag]
    exact (launch_notepad_flagTrue cfg env).1
  refine ⟨fun cfg flag env h => launch_notepad_flag_monotone cfg flag env h, ?_, ?_, ?_⟩
  · intro cfg dir envs
    induction envs with
    | nil => intro r hr; cases hr
    | cons e rest ih =>
      intro r hr
      cases hr with
      | head =>
        rw [processItem_launch]
        obtain ⟨_, h2, h3, h4, h5⟩ := launch_notepad_flagTrue cfg e
        exact ⟨h2, h3, h4, h5⟩
      | tail _ hr =>
        rw [show runItems cfg dir (processItem cfg dir true e).2 rest
              = runItems cfg dir true rest by rw [hstep cfg dir e]] at hr
        exact ih r hr
  · intro cfg dir flag l1 l2
    induction l1 generalizing flag with
    | nil => simp [runItems, runFlag]
    | cons e rest ih =>
      simp only [List.cons_append, runItems, runFlag, List.cons.injEq, true_and]
      exact ih (processItem cfg dir flag e).2
  · intro cfg dir envs
    induction envs with
    | nil => rfl
    | cons e rest ih =>
      simp only [runFlag, hstep]
      exact ih

/-- Witness for C1 at a concrete input: a run over two items starting
with the flag set keeps it set and performs zero backend invocations
and only subprocess launches on both items. -/
theorem C1_degradation_monotone_witness :
    (launch_notepad cfg0 true envGood).flagAfter = true ∧
    ((runItems cfg0 dir0 true [envGood, envStale]).map
        (fun r => r.launch.backendCalls) = [0, 0]) ∧
    (∀ r ∈ runItems cfg0 dir0 true [envGood, envStale],
      r.launch.backendCalls = 0 ∧ r.launch.gwrCalls = 0 ∧
      r.launch.usedSubprocForLaunch = true ∧ 1 ≤ r.launch.subprocLaunches) := by
  have h := C1_degradation_monotone
  exact ⟨h.1 cfg0 true envGood rfl, by decide, h.2.1 cfg0 dir0 [envGood, envStale]⟩

end Automation

namespace Automation

/-! # Claim C3 -/

/-- C3 counterexample: with `GROUNDING_MAX_RETRIES = 2` and a backend
that always raises, `launch_notepad` (flag not yet set) lets the
grounding-exhaustion `RuntimeError` propagate: the item performs **no**
direct subprocess launch, does not take the subprocess launch path, and
does not even set the degradation flag — refuting the claim that the
window-lifecycle caller falls back to the non-visual direct
process-launch path for that work item. -/
theorem C3_counterexample :
    (launch_notepad cfg2 false envFail).res
        = .error (.runtimeError 2 (some .inferenceError)) ∧
    (launch_notepad cfg2 false envFail).subprocLaunches = 0 ∧
    (launch_notepad cfg2 false envFail).usedSubprocForLaunch = false ∧
    (launch_notepad cfg2 false envFail).flagAfter = false := by
  decide

theorem runItems_length (cfg : Config) (dir : List Char) :
    ∀ (flag : Bool) (envs : List ItemEnv),
      (runItems cfg dir flag envs).length = envs.length := by
  intro flag envs
  induction envs generalizing flag with
  | nil => rfl
  | cons e rest ih => simp [runItems, ih]

/-- The only exception the verify-blank-document loop itself raises is
the `TimeoutError` of its in-loop relaunch. -/
theorem verifyLoop_error_timeout (env : ItemEnv) :
    ∀ (fuel a : Nat) (e : PyExc),
      (verifyLoop env a fuel).res = .error e → e = .timeoutError := by
  intro fuel
  induction fuel with
  | zero => intro a e h; simp [verifyLoop] at h
  | succ f ih =>
    intro a e h
    simp only [verifyLoop] at h
    by_cases h1 : env.verifyFindOk a
    · simp only [h1, if_true] at h
      by_cases h2 : env.blankTitle a
      · simp [h2] at h
      · simp only [h2, Bool.false_eq_true, reduceIte] at h
        exact ih (a + 1) e h
    · by_cases h2 : env.verifyRelaunchFindOk a
      · simp only [h1, h2, Bool.false_eq_true, reduceIte, if_true] at h
        by_cases h3 : env.blankTitle a
        · simp [h3] at h
        · simp only [h3, Bool.false_eq_true, reduceIte] at h
          exact ih (a + 1) e h
      · simp only [h1, h2, Bool.false_eq_true, reduceIte] at h
        exact (Except.error.injEq _ _ |>.mp h.symm)

/-- C3 (amended): the grounding-exhaustion `RuntimeError` is not fatal
to the process — it is caught at the item boundary in `main`, the item
is recorded as failed, and the run continues, producing one result per
work item — but `launch_notepad` does **not** fall back to the direct
process-launch path for that item: when the flag is down and the call
fails with the exhaustion error, no subprocess launch happened and the
degradation flag is still down (the fallback and the flag trip only on
the grounding-succeeded-but-window-never-appeared path). -/
theorem C3_amended :
    (∀ (cfg : Config) (dir : List Char) (flag : Bool) (envs : List ItemEnv),
      (runItems cfg dir flag envs).length = envs.length) ∧
    (∀ (cfg : Config) (dir : List Char) (flag : Bool) (env : ItemEnv) (e : PyExc),
      (launch_notepad cfg flag env).res = .error e →
      (processItem cfg dir flag env).1.ok = false) ∧
    (∀ (cfg : Config) (env : ItemEnv) (n : Nat) (last : Option GroundExc),
      (launch_notepad cfg false env).res = .error (.runtimeError n last) →
      (launch_notepad cfg false env).subprocLaunches = 0 ∧
      (launch_notepad cfg false env).usedSubprocForLaunch = false ∧
      (launch_notepad cfg false env).flagAfter = false) := by
  refine ⟨runItems_length, ?_, ?_⟩
  · intro cfg dir flag env e h
    unfold processItem
    simp [h]
  · intro cfg env n last h
    unfold launch_notepad at h ⊢
    rcases hl : launchLoop cfg env 1 3 with ⟨r, gc, bc⟩
    rcases r with e' | ho
    · simp [hl]
    · rcases ho with _ | h2
      · rcases hs : env.subprocFindOk with _ | _
        · simp [hl, hs] at h
        · simp only [hl, hs, Bool.false_eq_true, reduceIte] at h ⊢
          rcases hv : (verifyLoop env 1 5).res with e2 | ho2
          · have hto := verifyLoop_error_timeout env 5 1 e2 hv
            simp [hv] at h
            rw [h] at hto
            simp at hto
          · rcases ho2 with _ | h3
            · rcases hf : env.forcedFindOk with _ | _ <;> simp [hv, hf] at h
            · simp [hv] at h
      · simp only [hl, Bool.false_eq_true, reduceIte] at h ⊢
        rcases hv : (verifyLoop env 1 5).res with e2 | ho2
        · have hto := verifyLoop_error_timeout env 5 1 e2 hv
          simp [hv] at h
          rw [h] at hto
          simp at hto
        · rcases ho2 with _ | h3
          · rcases hf : env.forcedFindOk with _ | _ <;> simp [hv, hf] at h
          · simp [hv] at h

/-- Witness for C3 (amended) at a concrete input: the exhaustion-failing
item is recorded as failed, the following item still runs (two records
for two items, the second succeeding), and the failing item performed
no subprocess launch. -/
theorem C3_amended_witness :
    (runItems cfg2 dir0 false [envFail, envGood]).length = 2 ∧
    ((runItems cfg2 dir0 false [envFail, envGood]).map RunRecord.ok = [false, true]) ∧
    (processItem cfg2 dir0 false envFail).1.ok = false ∧
    (launch_notepad cfg2 false envFail).subprocLaunches = 0 := by
  have h := C3_amended
  refine ⟨h.1 cfg2 dir0 false [envFail, envGood], by decide, ?_, ?_⟩
  · exact h.2.1 cfg2 dir0 false envFail (.runtimeError 2 (some .inferenceError)) (by decide)
  · exact (h.2.2 cfg2 envFail 2 (some .inferenceError) (by decide)).1

end Automation

namespace Automation

/-! # Claim C7 -/

/-- C7: `save_post` reports success iff, after the save action, the
destination file `target_dir/post_<id>.txt` exists on disk with size
greater than zero; the result does not depend on the dialog
interactions of the save; and in the orchestrator a zero-byte file —
with no dialog and no raised error — makes the item's recorded status
an error. -/
theorem C7_save_filesystem_authoritative :
    (∀ (fs : List Char → Option Nat) (id : Nat) (dir : List Char) (d : Nat),
      save_post fs id dir d = true ↔
      ∃ s, fs (joinPath dir (post_filename id)) = some s ∧ 0 < s) ∧
    (∀ (fs : List Char → Option Nat) (id : Nat) (dir : List Char) (d1 d2 : Nat),
      save_post fs id dir d1 = save_post fs id dir d2) ∧
    (∀ (cfg : Config) (dir : List Char) (flag : Bool) (env : ItemEnv) (h : Nat),
      (launch_notepad cfg flag env).res = .ok h →
      env.fsAfterSave (joinPath dir (post_filename env.postId)) = some 0 →
      (processItem cfg dir flag env).1.ok = false) := by
  refine ⟨?_, ?_, ?_⟩
  · intro fs id dir d
    unfold save_post save_file_as
    rcases hfs : fs (joinPath dir (post_filename id)) with _ | s
    · simp [hfs]
    · simp [hfs]
  · intro fs id dir d1 d2
    rfl
  · intro cfg dir flag env h hok hzero
    unfold processItem
    simp only [hok]
    unfold save_post save_file_as
    simp [hzero]

/-- Witness for C7 at a concrete input: the zero-byte environment — the
launch succeeds, the save action writes a zero-byte file, no dialog and
no exception occur — and the item is recorded as failed. -/
theorem C7_save_filesystem_authoritative_witness :
    (save_post envZeroByte.fsAfterSave 7 dir0 0 = true ↔
      ∃ s, envZeroByte.fsAfterSave (joinPath dir0 (post_filename 7)) = some s ∧ 0 < s) ∧
    (launch_notepad cfg0 true envZeroByte).res = .ok 1 ∧
    envZeroByte.fsAfterSave (joinPath dir0 (post_filename 7)) = some 0 ∧
    (processItem cfg0 dir0 true envZeroByte).1.ok = false := by
  have h := C7_save_filesystem_authoritative
  refine ⟨h.1 envZeroByte.fsAfterSave 7 dir0 0, by decide, by decide, ?_⟩
  exact h.2.2 cfg0 dir0 true envZeroByte 1 (by decide) (by decide)

/-! # Claim C9 -/

/-- The verify-blank-document loop never iterates more often than its
fuel. -/
theorem verifyLoop_iterations_le (env : ItemEnv) :
    ∀ (fuel a : Nat), (verifyLoop env a fuel).iterations ≤ fuel := by
  intro fuel
  induction fuel with
  | zero => intro a; simp [verifyLoop]
  | succ f ih =>
    intro a
    simp only [verifyLoop]
    by_cases h1 : env.verifyFindOk a
    · simp only [h1, if_true]
      by_cases h2 : env.blankTitle a
      · simp [h2]
      · simp only [h2, Bool.false_eq_true, reduceIte]
        have := ih (a + 1)
        omega
    · by_cases h2 : env.verifyRelaunchFindOk a
      · simp only [h1, h2, Bool.false_eq_true, reduceIte, if_true]
        by_cases h3 : env.blankTitle a
        · simp [h3]
        · simp only [h3, Bool.false_eq_true, reduceIte]
          have := ih (a + 1)
          omega
      · simp only [h1, h2, Bool.false_eq_true, reduceIte]
        omega

/-- When the window is always found but the title never reads
"Untitled", the loop burns all its fuel without a result. -/
theorem verifyLoop_exhausts (env : ItemEnv)
    (hf : ∀ a, env.verifyFindOk a = true) (hb : ∀ a, env.blankTitle a = false) :
    ∀ (fuel a : Nat), verifyLoop env a fuel = ⟨.ok none, fuel, 0⟩ := by
  intro fuel
  induction fuel with
  | zero => intro a; rfl
  | succ f ih =>
    intro a
    simp only [verifyLoop, hf a, if_true, hb a, Bool.false_eq_true, reduceIte, ih (a + 1)]

/-- C9 counterexample: in the fully exhausting scenario (window always
present, title never "Untitled"), the verify-blank-document loop of
`launch_notepad` performs exactly **5** iterations — not 6 — before the
forced clean relaunch. -/
theorem C9_counterexample :
    (launch_notepad cfg0 true envStale).verifyIterations = 5 ∧
    ¬ (launch_notepad cfg0 true envStale).verifyIterations = 6 ∧
    (launch_notepad cfg0 true envStale).forcedRelaunch = true ∧
    (launch_notepad cfg0 true envStale).res = .ok 999 := by
  decide

/-- C9 (amended): the verify-blank-document loop (dismiss dialogs,
check for an "Untitled" title, otherwise close the stale tab and retry)
performs up to **5** attempts (`for attempt in range(1, 6)`); exhausting
the attempt budget forces a hard close-all-and-relaunch-clean as a last
resort and then proceeds unconditionally, returning a window handle
rather than failing (provided the relaunched window is found). -/
theorem C9_verify_loop_amended :
    (∀ (cfg : Config) (flag : Bool) (env : ItemEnv),
      (launch_notepad cfg flag env).verifyIterations ≤ 5) ∧
    (∀ (cfg : Config) (env : ItemEnv),
      env.subprocFindOk = true →
      (∀ a, env.verifyFindOk a = true) →
      (∀ a, env.blankTitle a = false) →
      env.forcedFindOk = true →
      (launch_notepad cfg true env).verifyIterations = 5 ∧
      (launch_notepad cfg true env).forcedRelaunch = true ∧
      ∃ h, (launch_notepad cfg true env).res = .ok h) := by
  constructor
  · intro cfg flag env
    unfold launch_notepad
    have hle := verifyLoop_iterations_le env 5 1
    rcases hp : (if flag = true then
        if env.subprocFindOk = true then
          (⟨.ok 0, flag, 0, 0, 1, true⟩ : PhaseAOut)
        else ⟨.error .timeoutError, flag, 0, 0, 1, true⟩
      else
        match launchLoop cfg env 1 3 with
        | (.error e, gc, bc) => ⟨.error e, flag, gc, bc, 0, false⟩
        | (.ok (some h), gc, bc) => ⟨.ok h, flag, gc, bc, 0, false⟩
        | (.ok none, gc, bc) =>
          if env.subprocFindOk = true then ⟨.ok 0, true, gc, bc, 1, true⟩
          else ⟨.error .timeoutError, true, gc, bc, 1, true⟩).res with e | p
    · simp [hp]
    · simp only [hp]
      rcases hv : (verifyLoop env 1 5).res with e2 | ho2
      · simpa [hv] using hle
      · rcases ho2 with _ | h3
        · rcases hf : env.forcedFindOk with _ | _ <;> simpa [hv, hf] using hle
        · simpa [hv] using hle
  · intro cfg env hs hf hb hforced
    have hv := verifyLoop_exhausts env hf hb 5 1
    unfold launch_notepad
    simp [hs, hv, hforced]

/-- Witness for C9 (amended) at a concrete input: the stale-tab
environment satisfies all hypotheses; 5 iterations, forced relaunch,
and a returned handle. -/
theorem C9_verify_loop_amended_witness :
    envStale.subprocFindOk = true ∧
    (launch_notepad cfg0 true envStale).verifyIterations ≤ 5 ∧
    ((launch_notepad cfg0 true envStale).verifyIterations = 5 ∧
     (launch_notepad cfg0 true envStale).forcedRelaunch = true ∧
     ∃ h, (launch_notepad cfg0 true envStale).res = .ok h) := by
  have h := C9_verify_loop_amended
  exact ⟨rfl, h.1 cfg0 true envStale,
    h.2 cfg0 envStale rfl (fun _ => rfl) (fun _ => rfl) rfl⟩

end Automation

namespace Automation

/-! # Character-class and scanning lemmas for the coordinate codec -/


theorem digit_not_ws {c : Char} (h : isDigitC c = true) : isWS c = false := by
  simp only [isDigitC, Bool.and_eq_true, decide_eq_true_eq] at h
  simp only [isWS, Bool.or_eq_false_iff, decide_eq_false_iff_not]
  omega

theorem ws_not_digit {c : Char} (h : isWS c = true) : isDigitC c = false := by
  simp only [isWS, Bool.or_eq_true, decide_eq_true_eq] at h
  simp only [isDigitC, Bool.and_eq_false_iff, decide_eq_false_iff_not]
  omega

theorem digit_ne {c d : Char} (h : isDigitC c = true) (hd : isDigitC d = false) : c ≠ d := by
  intro he
  subst he
  rw [h] at hd
  cases hd

theorem ws_ne {c d : Char} (h : isWS c = true) (hd : isWS d = false) : c ≠ d := by
  intro he
  subst he
  rw [h] at hd
  cases hd

theorem takeWhile_app {p : Char → Bool} :
    ∀ (a b : List Char), (∀ c ∈ a, p c = true) → headNot p b →
      (a ++ b).takeWhile p = a := by
  intro a
  induction a with
  | nil =>
    intro b _ hb
    cases b with
    | nil => rfl
    | cons c t => simp only [List.nil_append, List.takeWhile_cons, hb]; simp [headNot] at hb; simp [hb]
  | cons c a ih =>
    intro b ha hb
    have hc : p c = true := ha c (by simp)
    simp only [List.cons_append, List.takeWhile_cons, hc, if_true]
    rw [ih b (fun d hd => ha d (by simp [hd])) hb]

theorem dropWhile_app {p : Char → Bool} :
    ∀ (a b : List Char), (∀ c ∈ a, p c = true) → headNot p b →
      (a ++ b).dropWhile p = b := by
  intro a
  induction a with
  | nil =>
    intro b _ hb
    cases b with
    | nil => rfl
    | cons c t => simp only [headNot] at hb; simp [List.dropWhile_cons, hb]
  | cons c a ih =>
    intro b ha hb
    have hc : p c = true := ha c (by simp)
    simp only [List.cons_append, List.dropWhile_cons, hc, if_true]
    exact ih b (fun d hd => ha d (by simp [hd])) hb

/-- `dropWhile` on a list not starting with a `p`-element is the
identity. -/
theorem dropWhile_id {p : Char → Bool} {l : List Char} (h : headNot p l) :
    l.dropWhile p = l := by
  cases l with
  | nil => rfl
  | cons c t => simp only [headNot] at h; simp [List.dropWhile_cons, h]

/-- `dropWhile` distributes over an append whose right part does not
start with a `p`-element. -/
theorem dropWhile_append_headNot {p : Char → Bool} :
    ∀ (a b : List Char), headNot p b → (a ++ b).dropWhile p = a.dropWhile p ++ b := by
  intro a
  induction a with
  | nil => intro b hb; simp [dropWhile_id hb]
  | cons c a ih =>
    intro b hb
    rcases hp : p c with _ | _
    · simp [List.dropWhile_cons, hp]
    · simp only [List.cons_append, List.dropWhile_cons, hp, if_true]
      exact ih b hb

theorem takeWhile_mem {p : Char → Bool} :
    ∀ (l : List Char), ∀ c ∈ l.takeWhile p, p c = true := by
  intro l
  induction l with
  | nil => intro c hc; cases hc
  | cons d t ih =>
    intro c hc
    rcases hp : p d with _ | _
    · simp [List.takeWhile_cons, hp] at hc
    · simp only [List.takeWhile_cons, hp, if_true] at hc
      rcases List.mem_cons.mp hc with h | h
      · rw [h]; exact hp
      · exact ih c h

theorem dropWhile_headNot {p : Char → Bool} :
    ∀ (l : List Char), headNot p (l.dropWhile p) := by
  intro l
  induction l with
  | nil => trivial
  | cons d t ih =>
    rcases hp : p d with _ | _
    · simp [List.dropWhile_cons, hp, headNot]
    · simpa [List.dropWhile_cons, hp] using ih

theorem mem_of_mem_dropWhile {p : Char → Bool} {c : Char} {l : List Char}
    (h : c ∈ l.dropWhile p) : c ∈ l :=
  (List.dropWhile_sublist p).mem h

theorem headNot_ws_of_digits {da r : List Char} (hne : da ≠ [])
    (hd : ∀ c ∈ da, isDigitC c = true) : headNot isWS (da ++ r) := by
  cases da with
  | nil => exact absurd rfl hne
  | cons c t =>
    simp only [List.cons_append, headNot]
    exact digit_not_ws (hd c (by simp))

end Automation

namespace Automation

/-! # Digit-rendering lemmas -/

theorem digitChar_spec : ∀ n, n < 10 →
    isDigitC (digitChar n) = true ∧ (digitChar n).toNat - 48 = n := by
  intro n h
  interval_cases n <;> exact ⟨by decide, by decide⟩

theorem digitsVal_concat (xs : List Char) (c : Char) :
    digitsVal (xs ++ [c]) = 10 * digitsVal xs + (c.toNat - 48) := by
  simp [digitsVal, List.foldl_append]

theorem toDigitsAux_spec :
    ∀ (fuel n : Nat), n < fuel →
      toDigitsAux fuel n ≠ [] ∧ (∀ c ∈ toDigitsAux fuel n, isDigitC c = true) ∧
      digitsVal (toDigitsAux fuel n) = n := by
  intro fuel
  induction fuel with
  | zero => intro n h; omega
  | succ f ih =>
    intro n h
    by_cases h10 : n < 10
    · simp only [toDigitsAux, h10, if_true]
      obtain ⟨hd, hv⟩ := digitChar_spec n h10
      refine ⟨by simp, ?_, ?_⟩
      · intro c hc
        rw [List.mem_singleton.mp hc]
        exact hd
      · simpa [digitsVal] using hv
    · simp only [toDigitsAux, h10, if_false]
      have hrec : n / 10 < f := by omega
      obtain ⟨h1, h2, h3⟩ := ih (n / 10) hrec
      obtain ⟨hd, hv⟩ := digitChar_spec (n % 10) (by omega)
      refine ⟨by simp, ?_, ?_⟩
      · intro c hc
        rcases List.mem_append.mp hc with hc | hc
        · exact h2 c hc
        · rw [List.mem_singleton.mp hc]
          exact hd
      · rw [digitsVal_concat, h3, hv]
        omega

theorem toDigits_ne_nil (n : Nat) : toDigits n ≠ [] :=
  (toDigitsAux_spec (n + 1) n (by omega)).1

theorem toDigits_digits (n : Nat) : ∀ c ∈ toDigits n, isDigitC c = true :=
  (toDigitsAux_spec (n + 1) n (by omega)).2.1

theorem digitsVal_toDigits (n : Nat) : digitsVal (toDigits n) = n :=
  (toDigitsAux_spec (n + 1) n (by omega)).2.2


/-! # `scanNum` lemmas -/



theorem restOK_headNot_digit {r : List Char} (h : restOK r) : headNot isDigitC r := by
  cases r with
  | nil => trivial
  | cons c t => exact h.1

theorem takeWhile_all {p : Char → Bool} {l : List Char} (h : ∀ c ∈ l, p c = true) :
    l.takeWhile p = l := by
  have := takeWhile_app l [] h trivial
  simpa using this

theorem dropWhile_all {p : Char → Bool} {l : List Char} (h : ∀ c ∈ l, p c = true) :
    l.dropWhile p = [] := by
  have := dropWhile_app l [] h trivial
  simpa using this

/-- Running `scanNum` over a well-formed number token followed by
`restOK` text consumes exactly the token and returns the value of its
integer digit run. -/
theorem scanNum_exact {ds f rest : List Char}
    (hne : ds ≠ []) (hds : ∀ c ∈ ds, isDigitC c = true)
    (hf : FracOpt f) (hr : restOK rest) :
    scanNum (ds ++ f ++ rest) = some (digitsVal ds, rest) := by
  rcases hf with hf | ⟨fd, hfdne, hfd, hf⟩
  · subst hf
    simp only [List.append_nil]
    have htw : (ds ++ rest).takeWhile isDigitC = ds :=
      takeWhile_app ds rest hds (restOK_headNot_digit hr)
    have hdw : (ds ++ rest).dropWhile isDigitC = rest :=
      dropWhile_app ds rest hds (restOK_headNot_digit hr)
    simp only [scanNum, htw, hdw]
    rw [if_neg hne]
    cases rest with
    | nil => rfl
    | cons c t =>
      obtain ⟨hcd, hcdot⟩ := hr
      simp [hcdot]
  · subst hf
    have hdot : headNot isDigitC ('.' :: (fd ++ rest)) := by
      simp [headNot, isDigitC]
    have htw : (ds ++ ('.' :: fd) ++ rest).takeWhile isDigitC = ds := by
      rw [List.append_assoc]
      exact takeWhile_app ds _ hds hdot
    have hdw : (ds ++ ('.' :: fd) ++ rest).dropWhile isDigitC = '.' :: (fd ++ rest) := by
      rw [List.append_assoc]
      exact dropWhile_app ds _ hds hdot
    have htw2 : (fd ++ rest).takeWhile isDigitC = fd :=
      takeWhile_app fd rest hfd (restOK_headNot_digit hr)
    have hdw2 : (fd ++ rest).dropWhile isDigitC = rest :=
      dropWhile_app fd rest hfd (restOK_headNot_digit hr)
    simp only [scanNum, htw, hdw]
    rw [if_neg hne]
    simp [htw2, hfdne, hdw2]

/-- `scanNum` succeeds on any input starting with a digit. -/
theorem scanNum_exists {c : Char} {t : List Char} (hc : isDigitC c = true) :
    ∃ v r, scanNum (c :: t) = some (v, r) := by
  have hne : (c :: t).takeWhile isDigitC ≠ [] := by
    simp [List.takeWhile_cons, hc]
  simp only [scanNum]
  rw [if_neg hne]
  rcases hdw : (c :: t).dropWhile isDigitC with _ | ⟨d, r2⟩
  · exact ⟨_, _, rfl⟩
  · simp only []
    by_cases hdot : d = '.'
    · rw [if_pos hdot]
      by_cases hfd : r2.takeWhile isDigitC = []
      · rw [if_pos hfd]; exact ⟨_, _, rfl⟩
      · rw [if_neg hfd]; exact ⟨_, _, rfl⟩
    · rw [if_neg hdot]; exact ⟨_, _, rfl⟩

/-- Characterisation of a successful `scanNum`: the input decomposes
into a digit run, an optional fraction, and the returned remainder. -/
theorem scanNum_sound {l r : List Char} {v : Nat} (h : scanNum l = some (v, r)) :
    ∃ ds f, ds ≠ [] ∧ (∀ c ∈ ds, isDigitC c = true) ∧ FracOpt f ∧
      l = ds ++ f ++ r ∧ v = digitsVal ds := by
  by_cases hne : l.takeWhile isDigitC = []
  · rw [scanNum, if_pos hne] at h
    cases h
  refine ⟨l.takeWhile isDigitC, ?_⟩
  have hsplit : l.takeWhile isDigitC ++ l.dropWhile isDigitC = l :=
    List.takeWhile_append_dropWhile isDigitC l
  rw [scanNum, if_neg hne] at h
  rcases hdw : l.dropWhile isDigitC with _ | ⟨d, r2⟩
  · rw [hdw] at h
    simp only [Option.some.injEq, Prod.mk.injEq] at h
    refine ⟨[], hne, takeWhile_mem l, Or.inl rfl, ?_, h.1.symm⟩
    rw [List.append_nil, ← h.2, ← hdw]
    exact hsplit.symm
  · rw [hdw] at h
    simp only [] at h
    by_cases hdot : d = '.'
    · subst hdot
      rw [if_pos rfl] at h
      by_cases hfd : r2.takeWhile isDigitC = []
      · rw [if_pos hfd] at h
        simp only [Option.some.injEq, Prod.mk.injEq] at h
        refine ⟨[], hne, takeWhile_mem l, Or.inl rfl, ?_, h.1.symm⟩
        rw [List.append_nil, ← h.2, ← hdw]
        exact hsplit.symm
      · rw [if_neg hfd] at h
        simp only [Option.some.injEq, Prod.mk.injEq] at h
        refine ⟨'.' :: r2.takeWhile isDigitC, hne, takeWhile_mem l,
          Or.inr ⟨r2.takeWhile isDigitC, hfd, takeWhile_mem r2, rfl⟩, ?_, h.1.symm⟩
        have hr2 : r2.takeWhile isDigitC ++ r2.dropWhile isDigitC = r2 :=
          List.takeWhile_append_dropWhile isDigitC r2
        rw [← h.2]
        calc l = l.takeWhile isDigitC ++ l.dropWhile isDigitC := hsplit.symm
          _ = l.takeWhile isDigitC ++ ('.' :: r2) := by rw [hdw]
          _ = l.takeWhile isDigitC ++ ('.' :: r2.takeWhile isDigitC) ++ r2.dropWhile isDigitC := by
              simp [hr2]
    · rw [if_neg hdot] at h
      simp only [Option.some.injEq, Prod.mk.injEq] at h
      refine ⟨[], hne, takeWhile_mem l, Or.inl rfl, ?_, h.1.symm⟩
      rw [List.append_nil, ← h.2, ← hdw]
      exact hsplit.symm

end Automation

namespace Automation

/-! # Matcher lemmas -/



theorem restOK_ws {s r : List Char} {c : Char} (hs : WSonly s)
    (h1 : isDigitC c = false) (h2 : c ≠ '.') : restOK (s ++ c :: r) := by
  cases s with
  | nil => exact ⟨h1, h2⟩
  | cons w s2 =>
    refine ⟨ws_not_digit (hs w (by simp)), ws_ne (hs w (by simp)) (by decide)⟩

theorem headNot_cons {p : Char → Bool} {c : Char} {t : List Char} :
    headNot p (c :: t) = (p c = false) := rfl

/-- The head of a number token (digit run then optional fraction then
anything) is a digit, hence not whitespace. -/
theorem headNot_ws_numTok {d : List Char} (f X : List Char) (hne : d ≠ [])
    (hd : ∀ c ∈ d, isDigitC c = true) : headNot isWS (d ++ f ++ X) := by
  rw [List.append_assoc]
  exact headNot_ws_of_digits hne hd

/-- `matchP1` on a well-formed parenthesised coordinate shape followed
by anything returns the two digit-run values. -/
theorem matchP1_run (s1 d1 f1 s2 s3 d2 f2 s4 rest : List Char)
    (hs1 : WSonly s1) (hd1 : DigStr d1) (hf1 : FracOpt f1) (hs2 : WSonly s2)
    (hs3 : WSonly s3) (hd2 : DigStr d2) (hf2 : FracOpt f2) (hs4 : WSonly s4) :
    matchP1 ('(' :: (s1 ++ (d1 ++ f1 ++ (s2 ++ ',' ::
        (s3 ++ (d2 ++ f2 ++ (s4 ++ ')' :: rest)))))))
      = some (digitsVal d1, digitsVal d2) := by
  obtain ⟨hd1ne, hd1d⟩ := hd1
  obtain ⟨hd2ne, hd2d⟩ := hd2
  have e1 : (s1 ++ (d1 ++ f1 ++ (s2 ++ ',' ::
        (s3 ++ (d2 ++ f2 ++ (s4 ++ ')' :: rest)))))).dropWhile isWS
      = d1 ++ f1 ++ (s2 ++ ',' :: (s3 ++ (d2 ++ f2 ++ (s4 ++ ')' :: rest)))) :=
    dropWhile_app _ _ hs1 (headNot_ws_numTok f1 _ hd1ne hd1d)
  have e2 : scanNum (d1 ++ f1 ++ (s2 ++ ',' :: (s3 ++ (d2 ++ f2 ++ (s4 ++ ')' :: rest)))))
      = some (digitsVal d1, s2 ++ ',' :: (s3 ++ (d2 ++ f2 ++ (s4 ++ ')' :: rest)))) :=
    scanNum_exact hd1ne hd1d hf1 (restOK_ws hs2 (by decide) (by decide))
  have e3 : (s2 ++ ',' :: (s3 ++ (d2 ++ f2 ++ (s4 ++ ')' :: rest)))).dropWhile isWS
      = ',' :: (s3 ++ (d2 ++ f2 ++ (s4 ++ ')' :: rest))) :=
    dropWhile_app _ _ hs2 (show isWS ',' = false by decide)
  have e4 : (s3 ++ (d2 ++ f2 ++ (s4 ++ ')' :: rest))).dropWhile isWS
      = d2 ++ f2 ++ (s4 ++ ')' :: rest) :=
    dropWhile_app _ _ hs3 (headNot_ws_numTok f2 _ hd2ne hd2d)
  have e5 : scanNum (d2 ++ f2 ++ (s4 ++ ')' :: rest))
      = some (digitsVal d2, s4 ++ ')' :: rest) :=
    scanNum_exact hd2ne hd2d hf2 (restOK_ws hs4 (by decide) (by decide))
  have e6 : (s4 ++ ')' :: rest).dropWhile isWS = ')' :: rest :=
    dropWhile_app _ _ hs4 (show isWS ')' = false by decide)
  simp only [List.append_assoc, List.cons_append] at e1 e2 e3 e4 e5 e6 ⊢
  simp only [matchP1, e1, e2, e3, e4, e5, e6, reduceIte]

/-- `matchP2` on a well-formed bare comma coordinate shape followed by
`restOK` text returns the two digit-run values. -/
theorem matchP2_run (d1 f1 s2 s3 d2 f2 rest : List Char)
    (hd1 : DigStr d1) (hf1 : FracOpt f1) (hs2 : WSonly s2)
    (hs3 : WSonly s3) (hd2 : DigStr d2) (hf2 : FracOpt f2) (hr : restOK rest) :
    matchP2 (d1 ++ f1 ++ (s2 ++ ',' :: (s3 ++ (d2 ++ f2 ++ rest))))
      = some (digitsVal d1, digitsVal d2) := by
  obtain ⟨hd1ne, hd1d⟩ := hd1
  obtain ⟨hd2ne, hd2d⟩ := hd2
  have e2 : scanNum (d1 ++ f1 ++ (s2 ++ ',' :: (s3 ++ (d2 ++ f2 ++ rest))))
      = some (digitsVal d1, s2 ++ ',' :: (s3 ++ (d2 ++ f2 ++ rest))) :=
    scanNum_exact hd1ne hd1d hf1 (restOK_ws hs2 (by decide) (by decide))
  have e3 : (s2 ++ ',' :: (s3 ++ (d2 ++ f2 ++ rest))).dropWhile isWS
      = ',' :: (s3 ++ (d2 ++ f2 ++ rest)) :=
    dropWhile_app _ _ hs2 (show isWS ',' = false by decide)
  have e4 : (s3 ++ (d2 ++ f2 ++ rest)).dropWhile isWS = d2 ++ f2 ++ rest :=
    dropWhile_app _ _ hs3 (headNot_ws_numTok f2 _ hd2ne hd2d)
  have e5 : scanNum (d2 ++ f2 ++ rest) = some (digitsVal d2, rest) :=
    scanNum_exact hd2ne hd2d hf2 hr
  simp only [List.append_assoc, List.cons_append] at e2 e3 e4 e5 ⊢
  simp only [matchP2, e2, e3, e4, e5, reduceIte]

/-- Existence form of `matchP2_run` with an arbitrary tail after the
second digit run. -/
theorem matchP2_runEx (d1 f1 s2 s3 d2 post : List Char)
    (hd1 : DigStr d1) (hf1 : FracOpt f1) (hs2 : WSonly s2)
    (hs3 : WSonly s3) (hd2 : DigStr d2) :
    ∃ v2, matchP2 (d1 ++ f1 ++ (s2 ++ ',' :: (s3 ++ (d2 ++ post))))
      = some (digitsVal d1, v2) := by
  obtain ⟨hd1ne, hd1d⟩ := hd1
  obtain ⟨hd2ne, hd2d⟩ := hd2
  have e2 : scanNum (d1 ++ f1 ++ (s2 ++ ',' :: (s3 ++ (d2 ++ post))))
      = some (digitsVal d1, s2 ++ ',' :: (s3 ++ (d2 ++ post))) :=
    scanNum_exact hd1ne hd1d hf1 (restOK_ws hs2 (by decide) (by decide))
  have e3 : (s2 ++ ',' :: (s3 ++ (d2 ++ post))).dropWhile isWS
      = ',' :: (s3 ++ (d2 ++ post)) :=
    dropWhile_app _ _ hs2 (show isWS ',' = false by decide)
  have e4 : (s3 ++ (d2 ++ post)).dropWhile isWS = d2 ++ post :=
    dropWhile_app _ _ hs3 (headNot_ws_of_digits hd2ne hd2d)
  cases d2 with
  | nil => exact absurd rfl hd2ne
  | cons c dt =>
    obtain ⟨v, r, e5⟩ := scanNum_exists (t := dt ++ post) (hd2d c (by simp))
    refine ⟨v, ?_⟩
    simp only [List.append_assoc, List.cons_append] at e2 e3 e4 e5 ⊢
    simp only [matchP2, e2, e3, e4, e5, reduceIte]

/-- `matchP3` on a well-formed whitespace-separated coordinate shape
followed by `restOK` text returns the two digit-run values. -/
theorem matchP3_run (d1 f1 s d2 f2 rest : List Char)
    (hd1 : DigStr d1) (hf1 : FracOpt f1) (hs : WSonly s) (hsne : s ≠ [])
    (hd2 : DigStr d2) (hf2 : FracOpt f2) (hr : restOK rest) :
    matchP3 (d1 ++ f1 ++ (s ++ (d2 ++ f2 ++ rest)))
      = some (digitsVal d1, digitsVal d2) := by
  obtain ⟨hd1ne, hd1d⟩ := hd1
  obtain ⟨hd2ne, hd2d⟩ := hd2
  have hrest1 : restOK (s ++ (d2 ++ f2 ++ rest)) := by
    cases s with
    | nil => exact absurd rfl hsne
    | cons w s2 =>
      exact ⟨ws_not_digit (hs w (by simp)), ws_ne (hs w (by simp)) (by decide)⟩
  have e2 : scanNum (d1 ++ f1 ++ (s ++ (d2 ++ f2 ++ rest)))
      = some (digitsVal d1, s ++ (d2 ++ f2 ++ rest)) :=
    scanNum_exact hd1ne hd1d hf1 hrest1
  have e3 : (s ++ (d2 ++ f2 ++ rest)).takeWhile isWS = s :=
    takeWhile_app _ _ hs (headNot_ws_numTok f2 _ hd2ne hd2d)
  have e4 : (s ++ (d2 ++ f2 ++ rest)).dropWhile isWS = d2 ++ f2 ++ rest :=
    dropWhile_app _ _ hs (headNot_ws_numTok f2 _ hd2ne hd2d)
  have e5 : scanNum (d2 ++ f2 ++ rest) = some (digitsVal d2, rest) :=
    scanNum_exact hd2ne hd2d hf2 hr
  simp only [List.append_assoc, List.cons_append] at e2 e3 e4 e5 ⊢
  simp only [matchP3, e2, e3, e4, e5, reduceIte]
  rw [if_neg hsne]

/-- Existence form of `matchP3_run` with an arbitrary tail after the
second digit run. -/
theorem matchP3_runEx (d1 f1 s d2 post : List Char)
    (hd1 : DigStr d1) (hf1 : FracOpt f1) (hs : WSonly s) (hsne : s ≠ [])
    (hd2 : DigStr d2) :
    ∃ v2, matchP3 (d1 ++ f1 ++ (s ++ (d2 ++ post))) = some (digitsVal d1, v2) := by
  obtain ⟨hd1ne, hd1d⟩ := hd1
  obtain ⟨hd2ne, hd2d⟩ := hd2
  have hrest1 : restOK (s ++ (d2 ++ post)) := by
    cases s with
    | nil => exact absurd rfl hsne
    | cons w s2 =>
      exact ⟨ws_not_digit (hs w (by simp)), ws_ne (hs w (by simp)) (by decide)⟩
  have e2 : scanNum (d1 ++ f1 ++ (s ++ (d2 ++ post)))
      = some (digitsVal d1, s ++ (d2 ++ post)) :=
    scanNum_exact hd1ne hd1d hf1 hrest1
  have e3 : (s ++ (d2 ++ post)).takeWhile isWS = s :=
    takeWhile_app _ _ hs (headNot_ws_of_digits hd2ne hd2d)
  have e4 : (s ++ (d2 ++ post)).dropWhile isWS = d2 ++ post :=
    dropWhile_app _ _ hs (headNot_ws_of_digits hd2ne hd2d)
  cases d2 with
  | nil => exact absurd rfl hd2ne
  | cons c dt =>
    obtain ⟨v, r, e5⟩ := scanNum_exists (t := dt ++ post) (hd2d c (by simp))
    refine ⟨v, ?_⟩
    simp only [List.append_assoc, List.cons_append] at e2 e3 e4 e5 ⊢
    simp only [matchP3, e2, e3, e4, e5, reduceIte]
    rw [if_neg hsne]

end Automation

namespace Automation

/-! # Search lemmas -/

theorem searchM_head_some {m : List Char → Option (Nat × Nat)} {l : List Char}
    {v : Nat × Nat} (h : m l = some v) : searchM m l = some v := by
  cases l with
  | nil => simpa [searchM] using h
  | cons c t => simp [searchM, h]

theorem searchM_none_iff {m : List Char → Option (Nat × Nat)} :
    ∀ {l : List Char}, searchM m l = none ↔ ∀ t, t <:+ l → m t = none := by
  intro l
  induction l with
  | nil =>
    simp only [searchM]
    constructor
    · intro h t ht
      rw [List.suffix_nil.mp ht]
      exact h
    · intro h
      exact h [] (by simp)
  | cons c l ih =>
    simp only [searchM]
    rcases hm : m (c :: l) with _ | v
    · simp only []
      rw [ih]
      constructor
      · intro h t ht
        rcases List.suffix_cons_iff.mp ht with ht | ht
        · rw [ht]; exact hm
        · exact h t ht
      · intro h t ht
        exact h t (List.suffix_cons_iff.mpr (Or.inr ht))
    · simp only []
      constructor
      · intro h; cases h
      · intro h
        rw [h (c :: l) (by simp)] at hm
        cases hm

theorem searchM_sound {m : List Char → Option (Nat × Nat)} :
    ∀ {l : List Char} {v : Nat × Nat}, searchM m l = some v →
      ∃ t, t <:+ l ∧ m t = some v := by
  intro l
  induction l with
  | nil =>
    intro v h
    exact ⟨[], by simp, h⟩
  | cons c l ih =>
    intro v h
    simp only [searchM] at h
    rcases hm : m (c :: l) with _ | w
    · rw [hm] at h
      obtain ⟨t, ht, hmt⟩ := ih h
      exact ⟨t, List.suffix_cons_iff.mpr (Or.inr ht), hmt⟩
    · rw [hm] at h
      cases h
      exact ⟨c :: l, by simp, hm⟩

theorem searchM_isSome {m : List Char → Option (Nat × Nat)} :
    ∀ {l t : List Char} {v : Nat × Nat}, t <:+ l → m t = some v →
      ∃ w, searchM m l = some w := by
  intro l
  induction l with
  | nil =>
    intro t v ht hm
    rw [List.suffix_nil.mp ht] at hm
    exact ⟨v, searchM_head_some hm⟩
  | cons c l ih =>
    intro t v ht hm
    rcases List.suffix_cons_iff.mp ht with ht | ht
    · subst ht
      exact ⟨v, searchM_head_some hm⟩
    · simp only [searchM]
      rcases hh : m (c :: l) with _ | w
      · exact ih ht hm
      · exact ⟨w, rfl⟩

/-! # Matcher failure lemmas -/

theorem matchP1_none_head {c : Char} {t : List Char} (hc : c ≠ '(') :
    matchP1 (c :: t) = none := by
  simp [matchP1, hc]

theorem matchP1_none_no_paren {l : List Char} (h : '(' ∉ l) : matchP1 l = none := by
  cases l with
  | nil => rfl
  | cons c t =>
    exact matchP1_none_head (fun he => h (by rw [he]; simp))

theorem searchM_matchP1_none {l : List Char} (h : '(' ∉ l) :
    searchM matchP1 l = none := by
  rw [searchM_none_iff]
  intro t ht
  exact matchP1_none_no_paren (fun hm => h (ht.subset hm))

/-- Skipping a paren-free prefix does not change the result of the
pattern-1 search. -/
theorem searchM_matchP1_skip :
    ∀ (pre l : List Char), '(' ∉ pre →
      searchM matchP1 (pre ++ l) = searchM matchP1 l := by
  intro pre
  induction pre with
  | nil => intro l _; rfl
  | cons c pre ih =>
    intro l h
    have hc : c ≠ '(' := fun he => h (by rw [he]; simp)
    simp only [List.cons_append, searchM, matchP1_none_head hc]
    exact ih l (fun hm => h (by simp [hm]))

theorem matchP2_none_no_comma {l : List Char} (h : ',' ∉ l) : matchP2 l = none := by
  rcases hsn : scanNum l with _ | ⟨v, r1⟩
  · simp [matchP2, hsn]
  · obtain ⟨ds, f, _, _, _, hdecomp, _⟩ := scanNum_sound hsn
    rcases hdw : r1.dropWhile isWS with _ | ⟨c2, t2⟩
    · simp [matchP2, hsn, hdw]
    · have hc2 : c2 ∈ l := by
        have h1 : c2 ∈ r1.dropWhile isWS := by rw [hdw]; simp
        have h2 : c2 ∈ r1 := mem_of_mem_dropWhile h1
        rw [hdecomp]
        simp [h2]
      have hne : c2 ≠ ',' := fun he => h (by rw [← he]; exact hc2)
      simp [matchP2, hsn, hdw, hne]

theorem searchM_matchP2_none {l : List Char} (h : ',' ∉ l) :
    searchM matchP2 l = none := by
  rw [searchM_none_iff]
  intro t ht
  exact matchP2_none_no_comma (fun hm => h (ht.subset hm))

end Automation

namespace Automation

/-! # Preprocessing lemmas -/

theorem headNot_append {p : Char → Bool} {core : List Char} (X : List Char)
    (hne : core ≠ []) (h : headNot p core) : headNot p (core ++ X) := by
  cases core with
  | nil => exact absurd rfl hne
  | cons c t => exact h

theorem pyStrip_id {l : List Char} (h1 : headNot isWS l) (h2 : headNot isWS l.reverse) :
    pyStrip l = l := by
  unfold pyStrip
  rw [dropWhile_id h1, dropWhile_id h2, List.reverse_reverse]

/-- `str.strip()` on `pre ++ core ++ post` with a core that neither
starts nor ends in whitespace only trims the outer parts. -/
theorem pyStrip_decomp (pre core post : List Char) (hne : core ≠ [])
    (h1 : headNot isWS core) (h2 : headNot isWS core.reverse) :
    pyStrip (pre ++ (core ++ post))
      = pre.dropWhile isWS ++ (core ++ (post.reverse.dropWhile isWS).reverse) := by
  have hrne : core.reverse ≠ [] := by
    intro he
    exact hne (by simpa using congrArg List.reverse he)
  have hfront : (pre ++ (core ++ post)).dropWhile isWS
      = pre.dropWhile isWS ++ (core ++ post) :=
    dropWhile_append_headNot pre (core ++ post) (headNot_append post hne h1)
  unfold pyStrip
  rw [hfront]
  have hrev : (pre.dropWhile isWS ++ (core ++ post)).reverse
      = post.reverse ++ (core.reverse ++ (pre.dropWhile isWS).reverse) := by
    simp [List.reverse_append]
  rw [hrev]
  have hback : (post.reverse ++ (core.reverse ++ (pre.dropWhile isWS).reverse)).dropWhile isWS
      = post.reverse.dropWhile isWS ++ (core.reverse ++ (pre.dropWhile isWS).reverse) :=
    dropWhile_append_headNot _ _ (headNot_append _ hrne h2)
  rw [hback]
  simp [List.reverse_append]

/-- `replace("```", "")` is the identity on backtick-free text. -/
theorem removeFences_no_btick : ∀ (l : List Char), btick ∉ l → removeFences l = l := by
  intro l
  induction l using removeFences.induct with
  | case1 => intro _; rfl
  | case2 c => intro _; rfl
  | case3 c d => intro _; rfl
  | case4 c d e r hcond ih =>
    intro hm
    exact absurd (by rw [hcond.1]; simp) hm
  | case5 c d e r hcond ih =>
    intro hm
    rw [removeFences, if_neg hcond]
    rw [ih (fun hx => hm (by simp at hx ⊢; tauto))]

/-- `replace("```", "")` deletes a trailing fence after backtick-free
text. -/
theorem removeFences_app_fence :
    ∀ (n : Nat) (l : List Char), l.length ≤ n → btick ∉ l →
      removeFences (l ++ [btick, btick, btick]) = l := by
  intro n
  induction n with
  | zero =>
    intro l hl _
    have he : l = [] := List.eq_nil_of_length_eq_zero (by omega)
    subst he
    decide
  | succ n ih =>
    intro l hl hm
    rcases l with _ | ⟨c1, l1⟩
    · decide
    rcases l1 with _ | ⟨c2, l2⟩
    · have hc1 : c1 ≠ btick := fun he => hm (by simp [he])
      simp [removeFences, hc1]
    rcases l2 with _ | ⟨c3, r⟩
    · have hc1 : c1 ≠ btick := fun he => hm (by simp [he])
      have hc2 : c2 ≠ btick := fun he => hm (by simp [he])
      simp [removeFences, hc1, hc2]
    · have hc1 : c1 ≠ btick := fun he => hm (by simp [he])
      simp only [List.cons_append]
      rw [removeFences, if_neg (by intro hco; exact hc1 hco.1)]
      have hstep : c2 :: c3 :: (r ++ [btick, btick, btick])
          = (c2 :: c3 :: r) ++ [btick, btick, btick] := by simp
      rw [hstep, ih (c2 :: c3 :: r) (by simp at hl ⊢; omega)
        (fun hx => hm (by simp at hx ⊢; tauto))]

/-- `replace("```", "")` on a fully fenced backtick-free core yields the
core. -/
theorem removeFences_fenced (core : List Char) (hm : btick ∉ core) :
    removeFences ([btick, btick, btick] ++ (core ++ [btick, btick, btick])) = core := by
  have h1 : removeFences ([btick, btick, btick] ++ (core ++ [btick, btick, btick]))
      = removeFences (core ++ [btick, btick, btick]) := by
    simp only [List.cons_append, List.nil_append]
    rw [removeFences, if_pos ⟨rfl, rfl, rfl⟩]
  rw [h1, removeFences_app_fence core.length core (le_refl _) hm]

end Automation

namespace Automation

/-! # Claim C4 — helper lemmas -/

theorem headNot_rev_snoc {p : Char → Bool} {c : Char} (X : List Char)
    (hc : p c = false) : headNot p ((X ++ [c]).reverse) := by
  rw [List.reverse_append]
  exact hc

theorem headNot_ws_reverse_digits {l : List Char} (X : List Char) (hne : l ≠ [])
    (h : ∀ c ∈ l, isDigitC c = true) : headNot isWS ((X ++ l).reverse) := by
  rw [List.reverse_append]
  cases hr : l.reverse with
  | nil =>
    exact absurd (by simpa using congrArg List.reverse hr) hne
  | cons c t =>
    have hcl : c ∈ l := by
      rw [← List.mem_reverse, hr]
      simp
    exact digit_not_ws (h c hcl)

theorem btick_not_mem_digits {l : List Char} (h : ∀ c ∈ l, isDigitC c = true) :
    btick ∉ l := by
  intro hm
  have := h btick hm
  exact absurd this (by decide)

theorem not_mem_digits {x : Char} {l : List Char} (hx : isDigitC x = false)
    (h : ∀ c ∈ l, isDigitC c = true) : x ∉ l := by
  intro hm
  rw [h x hm] at hx
  cases hx

/-- No backtick occurs in the core text `(a, b)`. -/
theorem core_no_btick (a b : Nat) :
    btick ∉ ('(' :: (toDigits a ++ (',' :: ' ' :: (toDigits b ++ [')'])))) := by
  intro hm
  rcases List.mem_cons.mp hm with h | hm2
  · exact absurd h (by decide)
  rcases List.mem_append.mp hm2 with h | hm3
  · exact btick_not_mem_digits (toDigits_digits a) h
  rcases List.mem_cons.mp hm3 with h | hm4
  · exact absurd h (by decide)
  rcases List.mem_cons.mp hm4 with h | hm5
  · exact absurd h (by decide)
  rcases List.mem_append.mp hm5 with h | hm6
  · exact btick_not_mem_digits (toDigits_digits b) h
  · exact absurd (List.mem_singleton.mp hm6) (by decide)

/-- The pattern-1 matcher accepts the core text `(a, b)` followed by
anything, returning exactly `(a, b)`. -/
theorem matchP1_core (a b : Nat) (post : List Char) :
    matchP1 ('(' :: (toDigits a ++ (',' :: ' ' :: (toDigits b ++ (')' :: post)))))
      = some (a, b) := by
  have h := matchP1_run [] (toDigits a) [] [] [' '] (toDigits b) [] [] post
    (by intro c hc; cases hc)
    ⟨toDigits_ne_nil a, toDigits_digits a⟩
    (Or.inl rfl)
    (by intro c hc; cases hc)
    (by intro c hc; simp at hc; rw [hc]; decide)
    ⟨toDigits_ne_nil b, toDigits_digits b⟩
    (Or.inl rfl)
    (by intro c hc; cases hc)
  rw [digitsVal_toDigits, digitsVal_toDigits] at h
  simpa using h

/-- The pattern-2 matcher accepts the core text `a, b`, returning
exactly `(a, b)`. -/
theorem matchP2_core (a b : Nat) :
    matchP2 (toDigits a ++ (',' :: ' ' :: toDigits b)) = some (a, b) := by
  have h := matchP2_run (toDigits a) [] [] [' '] (toDigits b) [] []
    ⟨toDigits_ne_nil a, toDigits_digits a⟩
    (Or.inl rfl)
    (by intro c hc; cases hc)
    (by intro c hc; simp at hc; rw [hc]; decide)
    ⟨toDigits_ne_nil b, toDigits_digits b⟩
    (Or.inl rfl)
    trivial
  rw [digitsVal_toDigits, digitsVal_toDigits] at h
  simpa using h

/-- The pattern-3 matcher accepts the core text `a b`, returning
exactly `(a, b)`. -/
theorem matchP3_core (a b : Nat) :
    matchP3 (toDigits a ++ (' ' :: toDigits b)) = some (a, b) := by
  have h := matchP3_run (toDigits a) [] [' '] (toDigits b) [] []
    ⟨toDigits_ne_nil a, toDigits_digits a⟩
    (Or.inl rfl)
    (by intro c hc; simp at hc; rw [hc]; decide)
    (by simp)
    ⟨toDigits_ne_nil b, toDigits_digits b⟩
    (Or.inl rfl)
    trivial
  rw [digitsVal_toDigits, digitsVal_toDigits] at h
  simpa using h

end Automation

namespace Automation

/-! # Claim C4 — preprocessing of the four formats -/

/-- The core text `(a, b)` is left unchanged by the preprocessing. -/
theorem preprocess_core (a b : Nat) :
    preprocess ('(' :: (toDigits a ++ (',' :: ' ' :: (toDigits b ++ [')']))))
      = '(' :: (toDigits a ++ (',' :: ' ' :: (toDigits b ++ [')']))) := by
  have hh1 : headNot isWS ('(' :: (toDigits a ++ (',' :: ' ' :: (toDigits b ++ [')'])))) :=
    (by decide : isWS '(' = false)
  have hCr : ('(' :: (toDigits a ++ (',' :: ' ' :: (toDigits b ++ [')']))))
      = ('(' :: (toDigits a ++ (',' :: ' ' :: toDigits b))) ++ [')'] := by simp
  have hh2 : headNot isWS
      (('(' :: (toDigits a ++ (',' :: ' ' :: (toDigits b ++ [')'])))).reverse) := by
    rw [hCr]
    exact headNot_rev_snoc _ (by decide)
  unfold preprocess
  rw [pyStrip_id hh1 hh2, removeFences_no_btick _ (core_no_btick a b)]

/-- C4: `_parse_coordinates` selects coordinates by pattern-class
priority — parenthesised pair first, then bare comma-separated pair,
then bare whitespace-separated pair — and within a class returns the
left-most match, tolerating markdown fences and surrounding prose.
For any integer pair `(a, b)` with `0 ≤ a, b < 1000`, each of
`"(a, b)"`, `"a, b"`, `"a b"` and the markdown-fenced variant
`"```(a, b)```"` parses to exactly `(a, b)` (the inputs are spelled as
the character lists of those strings), and text containing a single
`(a, b)` pair surrounded by paren-free, fence-free prose parses to that
pair (left-most match; the trailing prose may contain further pairs).
The closing concrete conjuncts exhibit the class priority — a later
parenthesised pair beats an earlier whitespace pair, a comma pair beats
a whitespace pair — and the in-class left-most rule. -/
theorem C4_parse_format_insensitive (a b : Nat) (_ha : a < 1000) (_hb : b < 1000) :
    parse_coordinates ('(' :: (toDigits a ++ (',' :: ' ' :: (toDigits b ++ [')']))))
        = .ok (a, b) ∧
    parse_coordinates (toDigits a ++ (',' :: ' ' :: toDigits b)) = .ok (a, b) ∧
    parse_coordinates (toDigits a ++ (' ' :: toDigits b)) = .ok (a, b) ∧
    parse_coordinates ([btick, btick, btick] ++
        (('(' :: (toDigits a ++ (',' :: ' ' :: (toDigits b ++ [')'])))) ++
          [btick, btick, btick])) = .ok (a, b) ∧
    (∀ pre post : List Char, '(' ∉ pre → btick ∉ pre → btick ∉ post →
      parse_coordinates (pre ++ (('(' :: (toDigits a ++ (',' :: ' ' ::
          (toDigits b ++ [')'])))) ++ post)) = .ok (a, b)) ∧
    parse_coordinates "5 6 (1, 2)".toList = .ok (1, 2) ∧
    parse_coordinates "7, 8 then 1 2".toList = .ok (7, 8) ∧
    parse_coordinates "(1, 2) and (3, 4)".toList = .ok (1, 2) := by
  have hda := toDigits_digits a
  have hdb := toDigits_digits b
  have hdane := toDigits_ne_nil a
  have hdbne := toDigits_ne_nil b
  refine ⟨?_, ?_, ?_, ?_, ?_, by decide, by decide, by decide⟩
  · -- "(a, b)"
    have hs1 : searchM matchP1
        ('(' :: (toDigits a ++ (',' :: ' ' :: (toDigits b ++ [')'])))) = some (a, b) :=
      searchM_head_some (matchP1_core a b [])
    simp only [parse_coordinates, preprocess_core, hs1]
  · -- "a, b"
    have hh1 : headNot isWS (toDigits a ++ (',' :: ' ' :: toDigits b)) :=
      headNot_ws_of_digits hdane hda
    have hCr : (toDigits a ++ (',' :: ' ' :: toDigits b))
        = (toDigits a ++ [',', ' ']) ++ toDigits b := by simp
    have hh2 : headNot isWS ((toDigits a ++ (',' :: ' ' :: toDigits b)).reverse) := by
      rw [hCr]
      exact headNot_ws_reverse_digits _ hdbne hdb
    have hnb : btick ∉ (toDigits a ++ (',' :: ' ' :: toDigits b)) := by
      intro hm
      rcases List.mem_append.mp hm with h | hm2
      · exact btick_not_mem_digits hda h
      rcases List.mem_cons.mp hm2 with h | hm3
      · exact absurd h (by decide)
      rcases List.mem_cons.mp hm3 with h | hm4
      · exact absurd h (by decide)
      · exact btick_not_mem_digits hdb hm4
    have hnp : '(' ∉ (toDigits a ++ (',' :: ' ' :: toDigits b)) := by
      intro hm
      rcases List.mem_append.mp hm with h | hm2
      · exact not_mem_digits (by decide) hda h
      rcases List.mem_cons.mp hm2 with h | hm3
      · exact absurd h (by decide)
      rcases List.mem_cons.mp hm3 with h | hm4
      · exact absurd h (by decide)
      · exact not_mem_digits (by decide) hdb hm4
    have hpre : preprocess (toDigits a ++ (',' :: ' ' :: toDigits b))
        = toDigits a ++ (',' :: ' ' :: toDigits b) := by
      unfold preprocess
      rw [pyStrip_id hh1 hh2, removeFences_no_btick _ hnb]
    have hs1 : searchM matchP1 (toDigits a ++ (',' :: ' ' :: toDigits b)) = none :=
      searchM_matchP1_none hnp
    have hs2 : searchM matchP2 (toDigits a ++ (',' :: ' ' :: toDigits b)) = some (a, b) :=
      searchM_head_some (matchP2_core a b)
    simp only [parse_coordinates, hpre, hs1, hs2]
  · -- "a b"
    have hh1 : headNot isWS (toDigits a ++ (' ' :: toDigits b)) :=
      headNot_ws_of_digits hdane hda
    have hCr : (toDigits a ++ (' ' :: toDigits b))
        = (toDigits a ++ [' ']) ++ toDigits b := by simp
    have hh2 : headNot isWS ((toDigits a ++ (' ' :: toDigits b)).reverse) := by
      rw [hCr]
      exact headNot_ws_reverse_digits _ hdbne hdb
    have hnb : btick ∉ (toDigits a ++ (' ' :: toDigits b)) := by
      intro hm
      rcases List.mem_append.mp hm with h | hm2
      · exact btick_not_mem_digits hda h
      rcases List.mem_cons.mp hm2 with h | hm3
      · exact absurd h (by decide)
      · exact btick_not_mem_digits hdb hm3
    have hnp : '(' ∉ (toDigits a ++ (' ' :: toDigits b)) := by
      intro hm
      rcases List.mem_append.mp hm with h | hm2
      · exact not_mem_digits (by decide) hda h
      rcases List.mem_cons.mp hm2 with h | hm3
      · exact absurd h (by decide)
      · exact not_mem_digits (by decide) hdb hm3
    have hnc : ',' ∉ (toDigits a ++ (' ' :: toDigits b)) := by
      intro hm
      rcases List.mem_append.mp hm with h | hm2
      · exact not_mem_digits (by decide) hda h
      rcases List.mem_cons.mp hm2 with h | hm3
      · exact absurd h (by decide)
      · exact not_mem_digits (by decide) hdb hm3
    have hpre : preprocess (toDigits a ++ (' ' :: toDigits b))
        = toDigits a ++ (' ' :: toDigits b) := by
      unfold preprocess
      rw [pyStrip_id hh1 hh2, removeFences_no_btick _ hnb]
    have hs1 : searchM matchP1 (toDigits a ++ (' ' :: toDigits b)) = none :=
      searchM_matchP1_none hnp
    have hs2 : searchM matchP2 (toDigits a ++ (' ' :: toDigits b)) = none :=
      searchM_matchP2_none hnc
    have hs3 : searchM matchP3 (toDigits a ++ (' ' :: toDigits b)) = some (a, b) :=
      searchM_head_some (matchP3_core a b)
    simp only [parse_coordinates, hpre, hs1, hs2, hs3]
  · -- "```(a, b)```"
    have hh1 : headNot isWS ([btick, btick, btick] ++
        (('(' :: (toDigits a ++ (',' :: ' ' :: (toDigits b ++ [')'])))) ++
          [btick, btick, btick])) := (by decide : isWS btick = false)
    have hFr : ([btick, btick, btick] ++
        (('(' :: (toDigits a ++ (',' :: ' ' :: (toDigits b ++ [')'])))) ++
          [btick, btick, btick]))
        = ([btick, btick, btick] ++
            (('(' :: (toDigits a ++ (',' :: ' ' :: (toDigits b ++ [')'])))) ++
              [btick, btick])) ++ [btick] := by simp
    have hh2 : headNot isWS (([btick, btick, btick] ++
        (('(' :: (toDigits a ++ (',' :: ' ' :: (toDigits b ++ [')'])))) ++
          [btick, btick, btick])).reverse) := by
      rw [hFr]
      exact headNot_rev_snoc _ (by decide)
    have hpre : preprocess ([btick, btick, btick] ++
        (('(' :: (toDigits a ++ (',' :: ' ' :: (toDigits b ++ [')'])))) ++
          [btick, btick, btick]))
        = '(' :: (toDigits a ++ (',' :: ' ' :: (toDigits b ++ [')']))) := by
      unfold preprocess
      rw [pyStrip_id hh1 hh2, removeFences_fenced _ (core_no_btick a b)]
    have hs1 : searchM matchP1
        ('(' :: (toDigits a ++ (',' :: ' ' :: (toDigits b ++ [')'])))) = some (a, b) :=
      searchM_head_some (matchP1_core a b [])
    simp only [parse_coordinates, hpre, hs1]
  · -- prose around "(a, b)"
    intro pre post hp hbp hbq
    have hcne : ('(' :: (toDigits a ++ (',' :: ' ' :: (toDigits b ++ [')'])))) ≠
        ([] : List Char) := by simp
    have hh1 : headNot isWS ('(' :: (toDigits a ++ (',' :: ' ' :: (toDigits b ++ [')'])))) :=
      (by decide : isWS '(' = false)
    have hCr : ('(' :: (toDigits a ++ (',' :: ' ' :: (toDigits b ++ [')']))))
        = ('(' :: (toDigits a ++ (',' :: ' ' :: toDigits b))) ++ [')'] := by simp
    have hh2 : headNot isWS
        (('(' :: (toDigits a ++ (',' :: ' ' :: (toDigits b ++ [')'])))).reverse) := by
      rw [hCr]
      exact headNot_rev_snoc _ (by decide)
    have hstrip := pyStrip_decomp pre
      ('(' :: (toDigits a ++ (',' :: ' ' :: (toDigits b ++ [')'])))) post hcne hh1 hh2
    have hnb : btick ∉ (pre.dropWhile isWS ++
        (('(' :: (toDigits a ++ (',' :: ' ' :: (toDigits b ++ [')'])))) ++
          (post.reverse.dropWhile isWS).reverse)) := by
      intro hm
      rcases List.mem_append.mp hm with h | hm2
      · exact hbp (mem_of_mem_dropWhile h)
      rcases List.mem_append.mp hm2 with h | hm3
      · exact core_no_btick a b h
      · have h1 : btick ∈ post.reverse.dropWhile isWS := List.mem_reverse.mp hm3
        exact hbq (List.mem_reverse.mp (mem_of_mem_dropWhile h1))
    have hpre2 : preprocess (pre ++ (('(' :: (toDigits a ++ (',' :: ' ' ::
        (toDigits b ++ [')'])))) ++ post))
        = pre.dropWhile isWS ++
          (('(' :: (toDigits a ++ (',' :: ' ' :: (toDigits b ++ [')'])))) ++
            (post.reverse.dropWhile isWS).reverse) := by
      unfold preprocess
      rw [hstrip, removeFences_no_btick _ hnb]
    have hnp2 : '(' ∉ pre.dropWhile isWS := fun h => hp (mem_of_mem_dropWhile h)
    have hmc : matchP1 (('(' :: (toDigits a ++ (',' :: ' ' :: (toDigits b ++ [')'])))) ++
        (post.reverse.dropWhile isWS).reverse) = some (a, b) := by
      have h := matchP1_core a b ((post.reverse.dropWhile isWS).reverse)
      simp only [List.cons_append, List.append_assoc, List.cons_append] at h ⊢
      simpa using h
    have hs1 : searchM matchP1 (pre.dropWhile isWS ++
        (('(' :: (toDigits a ++ (',' :: ' ' :: (toDigits b ++ [')'])))) ++
          (post.reverse.dropWhile isWS).reverse)) = some (a, b) := by
      rw [searchM_matchP1_skip _ _ hnp2]
      exact searchM_head_some hmc
    simp only [parse_coordinates, hpre2, hs1]

end Automation

namespace Automation

/-- Witness for C4 at a concrete input: the pair (523, 741), with the
plain parenthesised format and the prose-surrounded format
`"Answer: (523, 741) end"`. -/
theorem C4_parse_format_insensitive_witness :
    523 < 1000 ∧ 741 < 1000 ∧
    parse_coordinates ('(' :: (toDigits 523 ++ (',' :: ' ' :: (toDigits 741 ++ [')']))))
        = .ok (523, 741) ∧
    parse_coordinates ("Answer: ".toList ++ (('(' :: (toDigits 523 ++ (',' :: ' ' ::
        (toDigits 741 ++ [')'])))) ++ " end".toList)) = .ok (523, 741) := by
  have h := C4_parse_format_insensitive 523 741 (by decide) (by decide)
  exact ⟨by decide, by decide, h.1,
    h.2.2.2.2.1 "Answer: ".toList " end".toList (by decide) (by decide) (by decide)⟩

end Automation

namespace Automation

/-! # Claim C6 — declarative coordinate shapes -/





/-- A successful pattern-1 match decomposes its input as a shape
followed by arbitrary text. -/
theorem matchP1_sound {l : List Char} {x y : Nat} (h : matchP1 l = some (x, y)) :
    ∃ mid post, ShapeP1 mid ∧ l = mid ++ post := by
  cases l with
  | nil => cases h
  | cons c t =>
  by_cases hc : c = '('
  swap
  · simp [matchP1, hc] at h
  subst hc
  rcases hsn : scanNum (t.dropWhile isWS) with _ | ⟨x1, r1⟩
  · simp [matchP1, hsn] at h
  rcases hdw1 : r1.dropWhile isWS with _ | ⟨c2, t2⟩
  · simp [matchP1, hsn, hdw1] at h
  by_cases hc2 : c2 = ','
  swap
  · simp [matchP1, hsn, hdw1, hc2] at h
  subst hc2
  rcases hsn2 : scanNum (t2.dropWhile isWS) with _ | ⟨y1, r2⟩
  · simp [matchP1, hsn, hdw1, hsn2] at h
  rcases hdw2 : r2.dropWhile isWS with _ | ⟨c3, rest⟩
  · simp [matchP1, hsn, hdw1, hsn2, hdw2] at h
  by_cases hc3 : c3 = ')'
  swap
  · simp [matchP1, hsn, hdw1, hsn2, hdw2, hc3] at h
  subst hc3
  obtain ⟨d1, f1, hd1ne, hd1d, hf1, hu1, _⟩ := scanNum_sound hsn
  obtain ⟨d2, f2, hd2ne, hd2d, hf2, hu2, _⟩ := scanNum_sound hsn2
  have h_t : t = t.takeWhile isWS ++ t.dropWhile isWS :=
    (List.takeWhile_append_dropWhile _ _).symm
  have h_r1 : r1 = r1.takeWhile isWS ++ (',' :: t2) :=
    (List.takeWhile_append_dropWhile isWS r1).symm.trans (by rw [hdw1])
  have h_t2 : t2 = t2.takeWhile isWS ++ t2.dropWhile isWS :=
    (List.takeWhile_append_dropWhile _ _).symm
  have h_r2 : r2 = r2.takeWhile isWS ++ (')' :: rest) :=
    (List.takeWhile_append_dropWhile isWS r2).symm.trans (by rw [hdw2])
  refine ⟨'(' :: (t.takeWhile isWS ++ (d1 ++ f1 ++ (r1.takeWhile isWS ++ ',' ::
      (t2.takeWhile isWS ++ (d2 ++ f2 ++ (r2.takeWhile isWS ++ [')'])))))), rest,
    ⟨t.takeWhile isWS, d1, f1, r1.takeWhile isWS, t2.takeWhile isWS, d2, f2,
      r2.takeWhile isWS, takeWhile_mem t, ⟨hd1ne, hd1d⟩, hf1, takeWhile_mem r1,
      takeWhile_mem t2, ⟨hd2ne, hd2d⟩, hf2, takeWhile_mem r2, rfl⟩, ?_⟩
  conv_lhs => rw [h_t, hu1, h_r1, h_t2, hu2, h_r2]
  simp

/-- A successful pattern-2 match decomposes its input as a shape
followed by arbitrary text. -/
theorem matchP2_sound {l : List Char} {x y : Nat} (h : matchP2 l = some (x, y)) :
    ∃ mid post, ShapeP2 mid ∧ l = mid ++ post := by
  rcases hsn : scanNum l with _ | ⟨x1, r1⟩
  · simp [matchP2, hsn] at h
  rcases hdw1 : r1.dropWhile isWS with _ | ⟨c2, t2⟩
  · simp [matchP2, hsn, hdw1] at h
  by_cases hc2 : c2 = ','
  swap
  · simp [matchP2, hsn, hdw1, hc2] at h
  subst hc2
  rcases hsn2 : scanNum (t2.dropWhile isWS) with _ | ⟨y1, r2⟩
  · simp [matchP2, hsn, hdw1, hsn2] at h
  obtain ⟨d1, f1, hd1ne, hd1d, hf1, hu1, _⟩ := scanNum_sound hsn
  obtain ⟨d2, f2, hd2ne, hd2d, hf2, hu2, _⟩ := scanNum_sound hsn2
  have h_r1 : r1 = r1.takeWhile isWS ++ (',' :: t2) :=
    (List.takeWhile_append_dropWhile isWS r1).symm.trans (by rw [hdw1])
  have h_t2 : t2 = t2.takeWhile isWS ++ t2.dropWhile isWS :=
    (List.takeWhile_append_dropWhile _ _).symm
  refine ⟨d1 ++ f1 ++ (r1.takeWhile isWS ++ ',' :: (t2.takeWhile isWS ++ (d2 ++ f2))), r2,
    ⟨d1, f1, r1.takeWhile isWS, t2.takeWhile isWS, d2, f2,
      ⟨hd1ne, hd1d⟩, hf1, takeWhile_mem r1, takeWhile_mem t2, ⟨hd2ne, hd2d⟩, hf2, rfl⟩, ?_⟩
  conv_lhs => rw [hu1, h_r1, h_t2, hu2]
  simp

/-- A successful pattern-3 match decomposes its input as a shape
followed by arbitrary text. -/
theorem matchP3_sound {l : List Char} {x y : Nat} (h : matchP3 l = some (x, y)) :
    ∃ mid post, ShapeP3 mid ∧ l = mid ++ post := by
  rcases hsn : scanNum l with _ | ⟨x1, r1⟩
  · simp [matchP3, hsn] at h
  by_cases hws : r1.takeWhile isWS = []
  · simp [matchP3, hsn, hws] at h
  rcases hsn2 : scanNum (r1.dropWhile isWS) with _ | ⟨y1, r2⟩
  · simp [matchP3, hsn, hws, hsn2] at h
  obtain ⟨d1, f1, hd1ne, hd1d, hf1, hu1, _⟩ := scanNum_sound hsn
  obtain ⟨d2, f2, hd2ne, hd2d, hf2, hu2, _⟩ := scanNum_sound hsn2
  have h_r1 : r1 = r1.takeWhile isWS ++ r1.dropWhile isWS :=
    (List.takeWhile_append_dropWhile _ _).symm
  refine ⟨d1 ++ f1 ++ (r1.takeWhile isWS ++ (d2 ++ f2)), r2,
    ⟨d1, f1, r1.takeWhile isWS, d2, f2,
      ⟨hd1ne, hd1d⟩, hf1, takeWhile_mem r1, hws, ⟨hd2ne, hd2d⟩, hf2, rfl⟩, ?_⟩
  conv_lhs => rw [hu1, h_r1, hu2]
  simp

end Automation

namespace Automation

/-- If a shape occurs anywhere in the text, the corresponding search
succeeds. -/
theorem occursShape_search {t : List Char} (h : OccursShape t) :
    (∃ v, searchM matchP1 t = some v) ∨ (∃ v, searchM matchP2 t = some v) ∨
    (∃ v, searchM matchP3 t = some v) := by
  obtain ⟨pre, mid, post, hsh, heq⟩ := h
  have hsuf : (mid ++ post) <:+ t := ⟨pre, heq.symm⟩
  rcases hsh with h1 | h2 | h3
  · left
    obtain ⟨s1, d1, f1, s2, s3, d2, f2, s4, hs1, hd1, hf1, hs2, hs3, hd2, hf2, hs4, hmid⟩ := h1
    have hm := matchP1_run s1 d1 f1 s2 s3 d2 f2 s4 post hs1 hd1 hf1 hs2 hs3 hd2 hf2 hs4
    have hmm : matchP1 (mid ++ post) = some (digitsVal d1, digitsVal d2) := by
      rw [hmid]
      simp only [List.cons_append, List.append_assoc] at hm ⊢
      simpa using hm
    obtain ⟨w, hw⟩ := searchM_isSome hsuf hmm
    exact ⟨w, hw⟩
  · right; left
    obtain ⟨d1, f1, s2, s3, d2, f2, hd1, hf1, hs2, hs3, hd2, hf2, hmid⟩ := h2
    obtain ⟨v2, hm⟩ := matchP2_runEx d1 f1 s2 s3 d2 (f2 ++ post) hd1 hf1 hs2 hs3 hd2
    have hmm : matchP2 (mid ++ post) = some (digitsVal d1, v2) := by
      rw [hmid]
      simp only [List.append_assoc] at hm ⊢
      simpa using hm
    obtain ⟨w, hw⟩ := searchM_isSome hsuf hmm
    exact ⟨w, hw⟩
  · right; right
    obtain ⟨d1, f1, s, d2, f2, hd1, hf1, hs, hsne, hd2, hf2, hmid⟩ := h3
    obtain ⟨v2, hm⟩ := matchP3_runEx d1 f1 s d2 (f2 ++ post) hd1 hf1 hs hsne hd2
    have hmm : matchP3 (mid ++ post) = some (digitsVal d1, v2) := by
      rw [hmid]
      simp only [List.append_assoc] at hm ⊢
      simpa using hm
    obtain ⟨w, hw⟩ := searchM_isSome hsuf hmm
    exact ⟨w, hw⟩

/-- If a search succeeds, a shape occurs in the text. -/
theorem search_occursShape {t : List Char} :
    ((∃ v, searchM matchP1 t = some v) ∨ (∃ v, searchM matchP2 t = some v) ∨
     (∃ v, searchM matchP3 t = some v)) → OccursShape t := by
  intro h
  rcases h with ⟨⟨x, y⟩, hv⟩ | ⟨⟨x, y⟩, hv⟩ | ⟨⟨x, y⟩, hv⟩
  · obtain ⟨t2, ⟨pre, hpre⟩, hm⟩ := searchM_sound hv
    obtain ⟨mid, post, hsh, hdec⟩ := matchP1_sound hm
    exact ⟨pre, mid, post, Or.inl hsh, by rw [← hpre, hdec]⟩
  · obtain ⟨t2, ⟨pre, hpre⟩, hm⟩ := searchM_sound hv
    obtain ⟨mid, post, hsh, hdec⟩ := matchP2_sound hm
    exact ⟨pre, mid, post, Or.inr (Or.inl hsh), by rw [← hpre, hdec]⟩
  · obtain ⟨t2, ⟨pre, hpre⟩, hm⟩ := searchM_sound hv
    obtain ⟨mid, post, hsh, hdec⟩ := matchP3_sound hm
    exact ⟨pre, mid, post, Or.inr (Or.inr hsh), by rw [← hpre, hdec]⟩

/-- C6: `_parse_coordinates` fails, and fails specifically with the
`ValueError` (the spec's `ParseError`) carrying the preprocessed text —
never with a different error kind and never by silently returning a
coordinate — exactly when no accepted coordinate shape occurs anywhere
in the preprocessed text (the code's `text` variable); in particular it
fails on the empty string. -/
theorem C6_parse_error_iff_no_shape (input : List Char) :
    ((∃ t, parse_coordinates input = .error (.valueError t)) ↔
      ¬ OccursShape (preprocess input)) ∧
    (∀ e, parse_coordinates input = .error e →
      e = .valueError (preprocess input)) ∧
    parse_coordinates [] = .error (.valueError []) := by
  refine ⟨?_, ?_, by decide⟩
  · constructor
    · rintro ⟨t, ht⟩ hocc
      rcases occursShape_search hocc with ⟨v, hv⟩ | ⟨v, hv⟩ | ⟨v, hv⟩
      · simp [parse_coordinates, hv] at ht
      · rcases hs1 : searchM matchP1 (preprocess input) with _ | w
        · simp [parse_coordinates, hs1, hv] at ht
        · simp [parse_coordinates, hs1] at ht
      · rcases hs1 : searchM matchP1 (preprocess input) with _ | w
        · rcases hs2 : searchM matchP2 (preprocess input) with _ | w2
          · simp [parse_coordinates, hs1, hs2, hv] at ht
          · simp [parse_coordinates, hs1, hs2] at ht
        · simp [parse_coordinates, hs1] at ht
    · intro hocc
      rcases hs1 : searchM matchP1 (preprocess input) with _ | w
      · rcases hs2 : searchM matchP2 (preprocess input) with _ | w2
        · rcases hs3 : searchM matchP3 (preprocess input) with _ | w3
          · exact ⟨preprocess input, by simp [parse_coordinates, hs1, hs2, hs3]⟩
          · exact absurd (search_occursShape (Or.inr (Or.inr ⟨w3, hs3⟩))) hocc
        · exact absurd (search_occursShape (Or.inr (Or.inl ⟨w2, hs2⟩))) hocc
      · exact absurd (search_occursShape (Or.inl ⟨w, hs1⟩)) hocc
  · intro e he
    rcases hs1 : searchM matchP1 (preprocess input) with _ | w
    · rcases hs2 : searchM matchP2 (preprocess input) with _ | w2
      · rcases hs3 : searchM matchP3 (preprocess input) with _ | w3
        · simp [parse_coordinates, hs1, hs2, hs3] at he
          rw [he]
        · simp [parse_coordinates, hs1, hs2, hs3] at he
      · simp [parse_coordinates, hs1, hs2] at he
    · simp [parse_coordinates, hs1] at he

/-- Witness for C6 at concrete inputs: digit-free text and the empty
string have no coordinate shape (obtained through the theorem from the
evaluated parse failure), and the empty string fails with the
`ValueError` carrying the empty text. -/
theorem C6_parse_error_iff_no_shape_witness :
    (¬ OccursShape (preprocess "no coordinates here".toList)) ∧
    (¬ OccursShape (preprocess [])) ∧
    parse_coordinates [] = .error (.valueError []) := by
  have h1 := C6_parse_error_iff_no_shape "no coordinates here".toList
  have h2 := C6_parse_error_iff_no_shape []
  exact ⟨h1.1.mp ⟨"no coordinates here".toList, by decide⟩,
    h2.1.mp ⟨[], by decide⟩, h2.2.2⟩

end Automation
